import Mathlib

set_option maxHeartbeats 1000000

/-! Shallow embedding of the lunchmoney-venmo-syncer core: the Venmo amount
parser, statement assembly, transaction normalization and batch submission
(src/types/venmo.rs, src/types/lunchmoney.rs, src/venmo.rs, src/main.rs),
together with theorems settling the specification claims. -/

/-- A single quote character, used inside the note format strings. -/
def qm : String := String.mk [Char.ofNat 39]

/-- Model of an IEEE double as an exact sign-and-magnitude rational: sign is
the sign bit (true means negative, which also covers negative zero), mag is
the absolute value, kept exact. Binary rounding is not modelled; the program
only parses, negates, moves and formats these values. -/
structure F64 where
  sign : Bool
  mag : ℚ
deriving DecidableEq

def F64.isSignPositive (x : F64) : Bool := !x.sign

def F64.isSignNegative (x : F64) : Bool := x.sign

/-- Negation of a double flips the sign bit and keeps the magnitude. -/
def F64.neg (x : F64) : F64 := ⟨!x.sign, x.mag⟩

/-- The signed rational value of the modelled double. -/
def F64.toRat (x : F64) : ℚ := if x.sign then -x.mag else x.mag

/-- The two fields of a rusty_money iso::Currency that the program reads. -/
structure Currency where
  symbol : String
  iso_alpha_code : String
deriving DecidableEq

/-- The USD currency constant, symbol and ISO alpha code. -/
def USD : Currency := ⟨"$", "USD"⟩

namespace lunchmoney

/-- Tag object from src/types/lunchmoney.rs. -/
structure Tag where
  id : ℕ
  name : String
  description : String
deriving DecidableEq

/-- Transaction status from src/types/lunchmoney.rs. -/
inductive TransactionStatus where
  | Cleared
  | Uncleared
  | Recurring
  | RecurringSuggested
deriving DecidableEq

/-- Newtype around a float amount, from src/types/lunchmoney.rs. -/
structure Amount where
  val : F64
deriving DecidableEq

/-- Transaction object from src/types/lunchmoney.rs, with the Default impl
values as field defaults; the date is modelled as an integer timestamp. -/
structure Transaction where
  id : Option ℕ := none
  date : ℤ := 0
  payee : Option String := none
  amount : Amount := ⟨⟨false, 0⟩⟩
  currency : Option String := none
  notes : Option String := none
  category_id : Option ℕ := none
  asset_id : Option ℕ := none
  status : TransactionStatus := .Uncleared
  parent_id : Option ℕ := none
  is_group : Option Bool := none
  group_id : Option ℕ := none
  tags : Option (List Tag) := none
  external_id : Option String := none
  original_name : Option String := none
deriving DecidableEq

end lunchmoney

namespace venmo

/-- Venmo transaction type from src/types/venmo.rs. -/
inductive TransactionType where
  | Charge
  | Payment
  | StandardTransfer
  | MerchantTransaction
deriving DecidableEq

/-- Venmo transaction status from src/types/venmo.rs. -/
inductive TransactionStatus where
  | Complete
  | Issued
deriving DecidableEq

/-- A parsed Venmo amount: the currency marker captured from the string and
the float value. -/
structure Amount where
  currency : String
  val : F64
deriving DecidableEq

/-- The loosely typed csv row from src/types/venmo.rs, every field optional;
datetimes are modelled as integer timestamps. -/
structure TransactionRecord where
  id : Option ℕ := none
  datetime : Option ℤ := none
  type_ : Option TransactionType := none
  status : Option TransactionStatus := none
  note : Option String := none
  from_ : Option String := none
  to_ : Option String := none
  amount_total : Option Amount := none
  amount_tip : Option Amount := none
  amount_fee : Option Amount := none
  funding_source : Option String := none
  destination : Option String := none
  beginning_balance : Option Amount := none
  ending_balance : Option Amount := none
  statment_period_venmo_fees : Option Amount := none
  terminal_location : Option String := none
  year_to_date_venmo_fees : Option Amount := none
  disclaimer : Option String := none
deriving DecidableEq

/-- The validated Venmo transaction from src/types/venmo.rs. -/
structure Transaction where
  id : ℕ
  datetime : ℤ
  type_ : TransactionType
  status : TransactionStatus
  note : Option String := none
  from_ : Option String := none
  to_ : Option String := none
  amount_total : Amount
  funding_source : Option String := none
  destination : Option String := none
deriving DecidableEq

/-- The error enum from src/types/venmo.rs. -/
inductive Error where
  | ParseTransactionTypeError (s : String)
  | ParseStatusError (s : String)
  | ParseAmountError (s : String)
  | WrongCurrencyError (expected iso actual : String)
  | InvalidRecord (field : String) (rec : TransactionRecord)
  | InvalidTransaction (field rule : String) (txn : Transaction)
deriving DecidableEq

deriving instance DecidableEq for Except

/-- Character class of the third capture group of VENMO_AMOUNT_RE. -/
def digitOrDot (c : Char) : Bool := c.isDigit || c = '.'

/-- One non-digit marker character followed by a nonempty run of digits and
dots reaching the end of the string: the second and third capture groups. -/
def mkMarker : List Char → Option (Char × List Char)
  | [] => none
  | m :: ds => if !m.isDigit && !ds.isEmpty && ds.all digitOrDot then some (m, ds) else none

/-- The optional-space part of the regex with its greedy priority: prefer
consuming a leading space, fall back to not consuming it. -/
def subMatch : List Char → Option (Char × List Char)
  | [] => none
  | c :: u =>
    if c = ' ' then (mkMarker u).orElse (fun _ => mkMarker (' ' :: u))
    else mkMarker (c :: u)

def isSignChar (c : Char) : Bool := c = '-' || c = '+'

/-- Models VENMO_AMOUNT_RE with the leftmost-first priorities of the regex
engine: the optional sign and the optional space are preferred consumed, with
fallback when the remainder cannot complete the anchored match. Returns the
three capture groups (sign, marker, numeric substring). -/
def matchAmount : List Char → Option (Option Char × Char × List Char)
  | [] => none
  | c :: rest =>
    if isSignChar c then
      match subMatch rest with
      | some (m, ds) => some (some c, m, ds)
      | none => (subMatch (c :: rest)).map (fun p => (none, p.1, p.2))
    else
      (subMatch (c :: rest)).map (fun p => (none, p.1, p.2))

def charVal (c : Char) : ℕ := c.toNat - 48

/-- Fractional digits after the decimal point: value and digit count; any
further non-digit (in particular a second dot) is a parse failure. -/
def parseFrac : List Char → ℕ → ℕ → Option (ℕ × ℕ)
  | [], v, k => some (v, k)
  | c :: l, v, k => if c.isDigit then parseFrac l (10 * v + charVal c) (k + 1) else none

/-- Integer-part scan of the numeric substring; seen records whether a digit
has appeared yet, since the float parser needs at least one digit. -/
def parseIntPart : List Char → ℕ → Bool → Option ℚ
  | [], v, seen => if seen then some (v : ℚ) else none
  | c :: l, v, seen =>
    if c.isDigit then parseIntPart l (10 * v + charVal c) true
    else
      if c = '.' then
        match parseFrac l 0 0 with
        | some p =>
          if seen || decide (0 < p.2) then some ((v : ℚ) + (p.1 : ℚ) / 10 ^ p.2) else none
        | none => none
      else none

/-- Models parsing the captured numeric substring to a float: at most one dot
and at least one digit, read as an exact decimal. -/
def parseNum (l : List Char) : Option ℚ := parseIntPart l 0 false

/-- Models the FromStr impl for Amount in src/types/venmo.rs: run the regex,
take the marker verbatim, parse the sign-prefixed numeric substring. -/
def Amount.from_str (s : String) : Except Error Amount :=
  match matchAmount s.data with
  | some (sgn, m, ds) =>
    match parseNum ds with
    | some q => .ok ⟨String.mk [m], ⟨sgn == some '-', q⟩⟩
    | none => .error (.ParseAmountError s)
  | none => .error (.ParseAmountError s)

end venmo

namespace venmo

/-- Round a rational to the nearest integer, ties to even, matching the
fixed-precision float formatter. -/
def roundHalfEven (q : ℚ) : ℤ :=
  if q - ⌊q⌋ < 1 / 2 then ⌊q⌋
  else if 1 / 2 < q - ⌊q⌋ then ⌊q⌋ + 1
  else if 2 ∣ ⌊q⌋ then ⌊q⌋ else ⌊q⌋ + 1

def digitChar (d : ℕ) : Char := Char.ofNat (48 + d)

/-- Decimal digits of a natural number, most significant first; the fuel
argument only bounds the recursion depth. -/
def natDigitsCore : ℕ → ℕ → List Char
  | 0, _ => []
  | fuel + 1, n =>
    if n < 10 then [digitChar n]
    else natDigitsCore fuel (n / 10) ++ [digitChar (n % 10)]

/-- Decimal digits of a natural number, most significant first. -/
def natDigits (n : ℕ) : List Char := natDigitsCore (n + 1) n

/-- Format a nonnegative rational with exactly four fractional digits, as the
fixed-precision float formatter does. -/
def fmt4 (m : ℚ) : List Char :=
  let n := (roundHalfEven (m * 10000)).toNat
  natDigits (n / 10000) ++
    ['.', digitChar (n / 1000 % 10), digitChar (n / 100 % 10), digitChar (n / 10 % 10),
      digitChar (n % 10)]

/-- Models the Display impl for Amount in src/types/venmo.rs: a minus sign
when the value has negative sign bit, then the currency marker verbatim, then
the absolute value with exactly four fractional digits. -/
def Amount.render (a : Amount) : String :=
  (if a.val.isSignNegative then "-" else "") ++ a.currency ++ String.mk (fmt4 a.val.mag)

/-- Models the TryFrom impl in src/types/venmo.rs: identifier, timestamp,
type, status and total amount must all be present; the first absent one
fails with InvalidRecord naming the field and carrying the record. -/
def Transaction.try_from (val : TransactionRecord) : Except Error Transaction :=
  match val.id with
  | none => .error (.InvalidRecord "id" val)
  | some i =>
    match val.datetime with
    | none => .error (.InvalidRecord "datetime" val)
    | some dt =>
      match val.type_ with
      | none => .error (.InvalidRecord "type_" val)
      | some ty =>
        match val.status with
        | none => .error (.InvalidRecord "status" val)
        | some st =>
          match val.amount_total with
          | none => .error (.InvalidRecord "amount_total" val)
          | some amt =>
            .ok { id := i, datetime := dt, type_ := ty, status := st,
                  note := val.note, from_ := val.from_, to_ := val.to_,
                  amount_total := amt, funding_source := val.funding_source,
                  destination := val.destination }

/-- The assembled statement from src/types/venmo.rs. -/
structure Statement where
  beginning_balance : Amount
  ending_balance : Amount
  transactions : List Transaction
deriving DecidableEq

/-- The failure cases of the assembly loop in src/venmo.rs: the two missing
record cases, the two missing boundary-balance cases (carrying the balance
field name), and a record that fails conversion (carrying the conversion
error and the raw record). -/
inductive AssembleError where
  | MissingBeginningRecord
  | MissingEndingRecord
  | MissingBoundary (field : String)
  | ConversionError (e : Error) (rec : TransactionRecord)
deriving DecidableEq

/-- The record loop of fetch_venmo_transactions in src/venmo.rs: take the
next record; if no record follows (one-element lookahead) it is the ending
balance record, otherwise it must convert to a Transaction, which is pushed
onto the accumulator in encounter order. -/
def assembleRest (bb : Amount) (acc : List Transaction) :
    List TransactionRecord → Except AssembleError Statement
  | [] => .error .MissingEndingRecord
  | [record] =>
    match record.ending_balance with
    | some eb => .ok ⟨bb, eb, acc⟩
    | none => .error (.MissingBoundary "Ending Balance")
  | record :: next :: rest =>
    match Transaction.try_from record with
    | .error e => .error (.ConversionError e record)
    | .ok t => assembleRest bb (acc ++ [t]) (next :: rest)

/-- Models the record-assembly part of fetch_venmo_transactions in
src/venmo.rs, on the already decoded csv rows in source order: the first
record must carry the beginning balance, then the loop of assembleRest runs
on the remaining records. -/
def fetch_venmo_transactions :
    List TransactionRecord → Except AssembleError Statement
  | [] => .error .MissingBeginningRecord
  | first :: rest =>
    match first.beginning_balance with
    | none => .error (.MissingBoundary "Beginning Balance")
    | some bb => assembleRest bb [] rest

/-- The payee match of to_lunchmoney_transactions in src/types/venmo.rs:
payee by transaction type, direction by the sign of the amount, with a
missing required field failing as InvalidTransaction naming the field, the
rule and the transaction. -/
def Transaction.resolvePayee (t : Transaction) : Except Error String :=
  match t.type_ with
  | TransactionType.StandardTransfer =>
    match t.destination with
    | some v => .ok ("TRANSFER TO " ++ v)
    | none => .error (.InvalidTransaction "destination"
        (qm ++ "Transaction Type" ++ qm ++ " is set to " ++ qm ++ "Standard Transfer" ++ qm) t)
  | TransactionType.Charge =>
    if t.amount_total.val.isSignPositive then
      match t.to_ with
      | some v => .ok v
      | none => .error (.InvalidTransaction "to"
          (qm ++ "Transaction Type" ++ qm ++ " is set to " ++ qm ++ "Charge" ++ qm ++ " and "
            ++ qm ++ "Amount" ++ qm ++ " is positive") t)
    else
      match t.from_ with
      | some v => .ok v
      | none => .error (.InvalidTransaction "from"
          (qm ++ "Transaction Type" ++ qm ++ " is set to " ++ qm ++ "Charge" ++ qm ++ " and "
            ++ qm ++ "Amount" ++ qm ++ " is negative") t)
  | TransactionType.Payment =>
    if t.amount_total.val.isSignPositive then
      match t.from_ with
      | some v => .ok v
      | none => .error (.InvalidTransaction "from"
          (qm ++ "Transaction Type" ++ qm ++ " is set to " ++ qm ++ "Payment" ++ qm ++ " or "
            ++ qm ++ "Merchant Transaction" ++ qm ++ " and " ++ qm ++ "Amount" ++ qm
            ++ " is positive") t)
    else
      match t.to_ with
      | some v => .ok v
      | none => .error (.InvalidTransaction "to"
          (qm ++ "Transaction Type" ++ qm ++ " is set to " ++ qm ++ "Payment" ++ qm ++ " or "
            ++ qm ++ "Merchant Transaction" ++ qm ++ " and " ++ qm ++ "Amount" ++ qm
            ++ " is negative") t)
  | TransactionType.MerchantTransaction =>
    if t.amount_total.val.isSignPositive then
      match t.from_ with
      | some v => .ok v
      | none => .error (.InvalidTransaction "from"
          (qm ++ "Transaction Type" ++ qm ++ " is set to " ++ qm ++ "Payment" ++ qm ++ " or "
            ++ qm ++ "Merchant Transaction" ++ qm ++ " and " ++ qm ++ "Amount" ++ qm
            ++ " is positive") t)
    else
      match t.to_ with
      | some v => .ok v
      | none => .error (.InvalidTransaction "to"
          (qm ++ "Transaction Type" ++ qm ++ " is set to " ++ qm ++ "Payment" ++ qm ++ " or "
            ++ qm ++ "Merchant Transaction" ++ qm ++ " and " ++ qm ++ "Amount" ++ qm
            ++ " is negative") t)

/-- The shadow funding push of to_lunchmoney_transactions: when a funding
source is present, nonempty and not the Venmo balance sentinel, one entry
transferring the negated amount from the funding source. -/
def Transaction.fundingShadow (t : Transaction) (expected_currency : Currency)
    (asset_id : ℕ) : List lunchmoney.Transaction :=
  match t.funding_source with
  | some funding_source =>
    if funding_source ≠ "" ∧ funding_source ≠ "Venmo balance" then
      [{ date := t.datetime,
         payee := some ("TRANSFER FROM " ++ funding_source),
         amount := ⟨t.amount_total.val.neg⟩,
         currency := some expected_currency.iso_alpha_code.toLower,
         notes := t.note.map
           (fun val => "To fund Venmo transaction with note: " ++ qm ++ val ++ qm),
         asset_id := some asset_id,
         external_id := some (toString t.id ++ "T"),
         status := .Uncleared }]
    else []
  | none => []

/-- The shadow destination push of to_lunchmoney_transactions: when a
destination is present, nonempty, not the Venmo balance sentinel and the
type is not StandardTransfer, one entry transferring the negated amount to
the destination. -/
def Transaction.destinationShadow (t : Transaction) (expected_currency : Currency)
    (asset_id : ℕ) : List lunchmoney.Transaction :=
  match t.destination with
  | some destination =>
    if destination ≠ "" ∧ destination ≠ "Venmo balance"
        ∧ t.type_ ≠ TransactionType.StandardTransfer then
      [{ date := t.datetime,
         payee := some ("TRANSFER TO " ++ destination),
         amount := ⟨t.amount_total.val.neg⟩,
         currency := some expected_currency.iso_alpha_code.toLower,
         notes := t.note.map
           (fun val => "From Venmo transaction with note: " ++ qm ++ val ++ qm),
         asset_id := some asset_id,
         external_id := some (toString t.id ++ "TDEPOSIT"),
         status := .Uncleared }]
    else []
  | none => []

/-- Models to_lunchmoney_transactions in src/types/venmo.rs: the currency
marker must equal the expected currency symbol, the payee is resolved, and
the primary entry plus the optional shadow entries are produced in order. -/
def Transaction.to_lunchmoney_transactions (t : Transaction)
    (expected_currency : Currency) (asset_id : ℕ) :
    Except Error (List lunchmoney.Transaction) :=
  if t.amount_total.currency ≠ expected_currency.symbol then
    .error (.WrongCurrencyError expected_currency.symbol
      expected_currency.iso_alpha_code t.amount_total.currency)
  else
    (t.resolvePayee).map (fun payee =>
      ({ date := t.datetime,
         payee := some payee,
         amount := ⟨t.amount_total.val⟩,
         currency := some expected_currency.iso_alpha_code.toLower,
         notes := t.note,
         asset_id := some asset_id,
         external_id := some (toString t.id),
         status := .Uncleared } : lunchmoney.Transaction)
      :: (t.fundingShadow expected_currency asset_id
          ++ t.destinationShadow expected_currency asset_id))

end venmo

/-- Collect a list of fallible results, aborting on the first error, as
collect into Result does in src/main.rs. -/
def mapExcept {α ε β : Type} (f : α → Except ε β) : List α → Except ε (List β)
  | [] => .ok []
  | a :: l =>
    match f a with
    | .error e => .error e
    | .ok b => (mapExcept f l).map (fun bs => b :: bs)

/-- The normalization step of cmd_sync_venmo_transactions in src/main.rs:
map every statement transaction through to_lunchmoney_transactions, abort
on the first error, flatten on success. -/
def normalizeAll (ts : List venmo.Transaction) (currency : Currency) (asset_id : ℕ) :
    Except venmo.Error (List lunchmoney.Transaction) :=
  (mapExcept (fun t => t.to_lunchmoney_transactions currency asset_id) ts).map List.flatten

/-- Consecutive chunks of at most n elements, preserving order, as the
itertools chunks adaptor used in src/main.rs. -/
def chunksOf {α : Type} (n : ℕ) (l : List α) : List (List α) :=
  match l with
  | [] => []
  | x :: xs => (x :: xs.take (n - 1)) :: chunksOf n (xs.drop (n - 1))
termination_by l.length
decreasing_by simp; omega

/-- The submission loop of cmd_sync_venmo_transactions in src/main.rs, with
the ledger call abstracted: submit each chunk in order, extending the
accumulated identifier list, aborting on the first failing call. -/
def submitChunks {ε : Type} (insert : List lunchmoney.Transaction → Except ε (List ℕ))
    (chunks : List (List lunchmoney.Transaction)) : Except ε (List ℕ) :=
  chunks.foldlM (fun acc chunk => (insert chunk).map (fun ids => acc ++ ids)) []

/-- The batch-submission core of cmd_sync_venmo_transactions: chunk the
flattened entries into groups of 50 and submit them sequentially. -/
def sync_venmo_transactions {ε : Type}
    (insert : List lunchmoney.Transaction → Except ε (List ℕ))
    (entries : List lunchmoney.Transaction) : Except ε (List ℕ) :=
  submitChunks insert (chunksOf 50 entries)

/-- The batches on which the ledger call is actually issued by the
submission loop: every batch up to and including the first failing one. -/
def submittedBatches {ε : Type} (insert : List lunchmoney.Transaction → Except ε (List ℕ)) :
    List (List lunchmoney.Transaction) → List (List lunchmoney.Transaction)
  | [] => []
  | c :: cs =>
    match insert c with
    | .ok _ => c :: submittedBatches insert cs
    | .error _ => [c]

/-- Modelled from the claim wording: the numeric substring is digits with at
most one decimal point. This is also exactly the condition under which the
float parse of a digits-and-dots substring succeeds. -/
def numOK (num : List Char) : Bool :=
  num.all venmo.digitOrDot && num.any Char.isDigit && decide (num.count '.' ≤ 1)

/-- Modelled from the claim wording: a single non-digit marker character
followed by digits with at most one decimal point. -/
def markerNumOK : List Char → Bool
  | [] => false
  | m :: num => !m.isDigit && numOK num

/-- Modelled from the claim wording, the pattern exactly as the claim states
it: optional sign, then a single non-digit marker character, then digits
with at most one decimal point, spanning the whole string. -/
def claimAmountPattern (s : String) : Bool :=
  match s.data with
  | [] => false
  | c :: rest => (venmo.isSignChar c && markerNumOK rest) || markerNumOK (c :: rest)

/-- The marker-and-number part preceded by an optional single space. -/
def spaceMarkerNumOK : List Char → Bool
  | [] => false
  | c :: u =>
    if c = ' ' then markerNumOK u || markerNumOK (' ' :: u)
    else markerNumOK (c :: u)

/-- The amended pattern on character lists: optional sign, optional single
space, a single non-digit marker, then digits with at most one decimal
point. -/
def amendedPatternL : List Char → Bool
  | [] => false
  | c :: rest => (venmo.isSignChar c && spaceMarkerNumOK rest) || spaceMarkerNumOK (c :: rest)

/-- The amended pattern: like the claim pattern but also allowing a single
space between the optional sign and the marker, as the source regex does. -/
def amendedAmountPattern (s : String) : Bool := amendedPatternL s.data

/-- Modelled from the claim table: the payee by transaction type, with
direction chosen by the sign of the amount; none when the required field is
absent. -/
def payeeRule (t : venmo.Transaction) : Option String :=
  match t.type_ with
  | .StandardTransfer => t.destination.map (fun d => "TRANSFER TO " ++ d)
  | .Charge => if t.amount_total.val.isSignPositive then t.to_ else t.from_
  | .Payment => if t.amount_total.val.isSignPositive then t.from_ else t.to_
  | .MerchantTransaction => if t.amount_total.val.isSignPositive then t.from_ else t.to_

/-- Modelled from the claim table: the field each payee-resolution rule
requires. -/
def requiredFieldName (t : venmo.Transaction) : String :=
  match t.type_ with
  | .StandardTransfer => "destination"
  | .Charge => if t.amount_total.val.isSignPositive then "to" else "from"
  | .Payment => if t.amount_total.val.isSignPositive then "from" else "to"
  | .MerchantTransaction => if t.amount_total.val.isSignPositive then "from" else "to"

/-- A concrete Venmo transaction used to instantiate hypotheses. -/
def sampleTxn : venmo.Transaction :=
  { id := 7, datetime := 100, type_ := .Charge, status := .Complete,
    note := some "pizza", from_ := some "Bob", to_ := some "Alice",
    amount_total := ⟨"$", ⟨false, 5⟩⟩, funding_source := some "Chase", destination := none }

/-- A transaction whose amount carries a non-dollar currency marker. -/
def sampleTxnE : venmo.Transaction :=
  { sampleTxn with amount_total := ⟨"E", ⟨false, 5⟩⟩ }

/-- Modelled from the claim wording of C3: the shadow funding entry with
payee TRANSFER FROM the funding source, the negated primary amount, the
funding note derived from the original note when present, external id the
transaction id with suffix T, and the same date and asset id as the primary
entry. -/
def fundingEntrySpec (t : venmo.Transaction) (ec : Currency) (aid : ℕ)
    (fs : String) : lunchmoney.Transaction :=
  { date := t.datetime,
    payee := some ("TRANSFER FROM " ++ fs),
    amount := ⟨t.amount_total.val.neg⟩,
    currency := some ec.iso_alpha_code.toLower,
    notes := t.note.map
      (fun v => "To fund Venmo transaction with note: " ++ qm ++ v ++ qm),
    asset_id := some aid,
    external_id := some (toString t.id ++ "T"),
    status := .Uncleared }

/-- Modelled from the claim wording of C4: the shadow destination entry with
payee TRANSFER TO the destination, the negated primary amount, the deposit
note derived from the original note when present, and external id the
transaction id with suffix TDEPOSIT. -/
def destinationEntrySpec (t : venmo.Transaction) (ec : Currency) (aid : ℕ)
    (d : String) : lunchmoney.Transaction :=
  { date := t.datetime,
    payee := some ("TRANSFER TO " ++ d),
    amount := ⟨t.amount_total.val.neg⟩,
    currency := some ec.iso_alpha_code.toLower,
    notes := t.note.map
      (fun v => "From Venmo transaction with note: " ++ qm ++ v ++ qm),
    asset_id := some aid,
    external_id := some (toString t.id ++ "TDEPOSIT"),
    status := .Uncleared }

/-- A concrete Payment with negative amount and a bank destination. -/
def sampleTxnD : venmo.Transaction :=
  { id := 9, datetime := 200, type_ := .Payment, status := .Complete,
    note := none, from_ := some "Bob", to_ := some "Alice",
    amount_total := ⟨"$", ⟨true, 10⟩⟩, funding_source := none,
    destination := some "Checking" }

/-- Two boundary-only records: beginning and ending balance rows. -/
def sampleBeginRecord : venmo.TransactionRecord :=
  { beginning_balance := some ⟨"$", ⟨false, 10⟩⟩ }

def sampleEndRecord : venmo.TransactionRecord :=
  { ending_balance := some ⟨"$", ⟨false, 15⟩⟩ }

/-- A complete csv data row that validates as a transaction. -/
def sampleRecord : venmo.TransactionRecord :=
  { id := some 7, datetime := some 100, type_ := some .Charge,
    status := some .Complete, note := some "pizza", from_ := some "Bob",
    to_ := some "Alice", amount_total := some ⟨"$", ⟨false, 5⟩⟩,
    funding_source := some "Chase" }

/-- A csv data row missing its transaction type. -/
def sampleBadRecord : venmo.TransactionRecord :=
  { id := some 8, datetime := some 100, status := some .Complete,
    amount_total := some ⟨"$", ⟨false, 5⟩⟩ }

/-- A default ledger entry, used to build concrete batches. -/
def emptyEntry : lunchmoney.Transaction := {}

/-- The amount parsed from the dollar string 1.25. -/
def sampleParsedAmount : venmo.Amount := ⟨"$", ⟨false, 5 / 4⟩⟩

/-- Accumulating decimal value of a list of digit characters. -/
def natValFrom (v : ℕ) (l : List Char) : ℕ :=
  l.foldl (fun a c => 10 * a + venmo.charVal c) v

example : venmo.Amount.from_str "$5.00" = .ok ⟨"$", ⟨false, 5⟩⟩ := by
  simp [venmo.Amount.from_str, venmo.matchAmount, venmo.subMatch, venmo.mkMarker,
    venmo.parseNum, venmo.parseIntPart, venmo.parseFrac, venmo.charVal, venmo.digitOrDot,
    venmo.isSignChar]

example : venmo.Amount.from_str "-$5.25" = .ok ⟨"$", ⟨true, 21 / 4⟩⟩ := by
  simp [venmo.Amount.from_str, venmo.matchAmount, venmo.subMatch, venmo.mkMarker,
    venmo.parseNum, venmo.parseIntPart, venmo.parseFrac, venmo.charVal, venmo.digitOrDot,
    venmo.isSignChar]
  norm_num

example : venmo.Amount.from_str "- $5.00" = .ok ⟨"$", ⟨true, 5⟩⟩ := by
  simp [venmo.Amount.from_str, venmo.matchAmount, venmo.subMatch, venmo.mkMarker,
    venmo.parseNum, venmo.parseIntPart, venmo.parseFrac, venmo.charVal, venmo.digitOrDot,
    venmo.isSignChar]

example : venmo.Amount.from_str "-5.00" = .ok ⟨"-", ⟨false, 5⟩⟩ := by
  simp [venmo.Amount.from_str, venmo.matchAmount, venmo.subMatch, venmo.mkMarker,
    venmo.parseNum, venmo.parseIntPart, venmo.parseFrac, venmo.charVal, venmo.digitOrDot,
    venmo.isSignChar]

example : venmo.Amount.from_str "$1.2.3" = .error (.ParseAmountError "$1.2.3") := by
  simp [venmo.Amount.from_str, venmo.matchAmount, venmo.subMatch, venmo.mkMarker,
    venmo.parseNum, venmo.parseIntPart, venmo.parseFrac, venmo.charVal, venmo.digitOrDot,
    venmo.isSignChar]

example : venmo.Amount.from_str "5.00" = .error (.ParseAmountError "5.00") := by
  simp [venmo.Amount.from_str, venmo.matchAmount, venmo.subMatch, venmo.mkMarker,
    venmo.parseNum, venmo.parseIntPart, venmo.parseFrac, venmo.charVal, venmo.digitOrDot,
    venmo.isSignChar]

lemma resolvePayee_ok_iff (t : venmo.Transaction) (p : String) :
    t.resolvePayee = .ok p ↔ payeeRule t = some p := by
  unfold venmo.Transaction.resolvePayee payeeRule
  cases ht : t.type_ <;> simp only
  case Charge | Payment | MerchantTransaction =>
    cases hp : t.amount_total.val.isSignPositive <;> simp only [Bool.false_eq_true, if_true,
      if_false, reduceIte] <;>
      first
        | (cases hv : t.to_ <;> simp [hv])
        | (cases hv : t.from_ <;> simp [hv])
  case StandardTransfer =>
    cases hd : t.destination <;> simp [hd]

lemma resolvePayee_none (t : venmo.Transaction) (h : payeeRule t = none) :
    ∃ r, t.resolvePayee = .error (.InvalidTransaction (requiredFieldName t) r t) := by
  unfold payeeRule at h
  unfold venmo.Transaction.resolvePayee requiredFieldName
  cases ht : t.type_ <;> rw [ht] at h <;> simp only
  case Charge | Payment | MerchantTransaction =>
    cases hp : t.amount_total.val.isSignPositive <;> rw [hp] at h <;>
      simp only [Bool.false_eq_true, if_true, if_false, reduceIte] at h ⊢ <;>
      first
        | (cases hv : t.to_ <;> rw [hv] at h <;> simp_all)
        | (cases hv : t.from_ <;> rw [hv] at h <;> simp_all)
  case StandardTransfer =>
    cases hd : t.destination <;> rw [hd] at h <;> simp_all

/-- Claim C1: for every transaction whose amount currency marker equals the
expected currency marker, normalization returns a list whose first entry has
date the transaction timestamp, the signed amount unchanged, the lowercase
ISO code, the note verbatim, the target asset id, the transaction id as
external id, uncleared status, and the payee resolved by the type-and-sign
table; when the field that table requires is absent, it fails with an error
naming that field, the rule that required it, and the transaction. -/
theorem normalize_primary_entry (t : venmo.Transaction) (ec : Currency) (aid : ℕ)
    (hc : t.amount_total.currency = ec.symbol) :
    (∀ p, payeeRule t = some p →
      ∃ rest, t.to_lunchmoney_transactions ec aid =
        .ok ({ date := t.datetime, payee := some p, amount := ⟨t.amount_total.val⟩,
               currency := some ec.iso_alpha_code.toLower, notes := t.note,
               asset_id := some aid, external_id := some (toString t.id),
               status := .Uncleared } :: rest)) ∧
    (payeeRule t = none →
      ∃ r, t.to_lunchmoney_transactions ec aid =
        .error (.InvalidTransaction (requiredFieldName t) r t)) := by
  constructor
  · intro p hp
    refine ⟨t.fundingShadow ec aid ++ t.destinationShadow ec aid, ?_⟩
    unfold venmo.Transaction.to_lunchmoney_transactions
    rw [if_neg (by simp [hc]), (resolvePayee_ok_iff t p).2 hp]
    rfl
  · intro h
    obtain ⟨r, hr⟩ := resolvePayee_none t h
    refine ⟨r, ?_⟩
    unfold venmo.Transaction.to_lunchmoney_transactions
    rw [if_neg (by simp [hc]), hr]
    rfl

/-- Witness for C1 at a concrete Charge with positive amount. -/
theorem normalize_primary_entry_witness :
    ∃ rest, sampleTxn.to_lunchmoney_transactions USD 3 =
      .ok ({ date := sampleTxn.datetime, payee := some "Alice",
             amount := ⟨sampleTxn.amount_total.val⟩,
             currency := some USD.iso_alpha_code.toLower, notes := sampleTxn.note,
             asset_id := some 3, external_id := some (toString sampleTxn.id),
             status := .Uncleared } :: rest) :=
  (normalize_primary_entry sampleTxn USD 3 rfl).1 "Alice" rfl

lemma resolvePayee_cases (t : venmo.Transaction) :
    (∃ p, t.resolvePayee = .ok p) ∨
      ∃ f r, t.resolvePayee = .error (.InvalidTransaction f r t) := by
  unfold venmo.Transaction.resolvePayee
  cases t.type_ <;> simp only
  case Charge | Payment | MerchantTransaction =>
    cases t.amount_total.val.isSignPositive <;>
      simp only [Bool.false_eq_true, reduceIte] <;>
      first
        | (cases t.to_ <;> simp)
        | (cases t.from_ <;> simp)
  case StandardTransfer => cases t.destination <;> simp

lemma mapExcept_append_error {α ε β : Type} (f : α → Except ε β)
    (pre post : List α) (t : α) (e : ε)
    (hpre : ∀ x ∈ pre, ∃ lx, f x = .ok lx) (ht : f t = .error e) :
    mapExcept f (pre ++ t :: post) = .error e := by
  induction pre with
  | nil => simp [mapExcept, ht]
  | cons x pre' ih =>
    obtain ⟨lx, hx⟩ := hpre x (by simp)
    have := ih (fun y hy => hpre y (by simp [hy]))
    simp [mapExcept, hx, this, Except.map]

/-- Claim C2: normalization fails with WrongCurrencyError carrying the
expected marker, the expected ISO code and the actual marker exactly when
the amount currency marker differs from the expected currency symbol; on
that failure no entry list is produced, and in a statement batch the first
failing transaction aborts the whole normalization with its error, with no
partial success. -/
theorem currency_mismatch_iff_batch_abort :
    (∀ (t : venmo.Transaction) (ec : Currency) (aid : ℕ),
      (t.to_lunchmoney_transactions ec aid =
          .error (.WrongCurrencyError ec.symbol ec.iso_alpha_code t.amount_total.currency)
        ↔ t.amount_total.currency ≠ ec.symbol) ∧
      (t.amount_total.currency ≠ ec.symbol →
        ∀ l, t.to_lunchmoney_transactions ec aid ≠ .ok l)) ∧
    (∀ (ts : List venmo.Transaction) (ec : Currency) (aid : ℕ)
      (pre post : List venmo.Transaction) (t : venmo.Transaction) (e : venmo.Error),
      ts = pre ++ t :: post →
      (∀ x ∈ pre, ∃ lx, x.to_lunchmoney_transactions ec aid = .ok lx) →
      t.to_lunchmoney_transactions ec aid = .error e →
      normalizeAll ts ec aid = .error e) := by
  constructor
  · intro t ec aid
    by_cases hc : t.amount_total.currency = ec.symbol
    · constructor
      · constructor
        · intro h
          exfalso
          unfold venmo.Transaction.to_lunchmoney_transactions at h
          rw [if_neg (by simp [hc])] at h
          rcases resolvePayee_cases t with ⟨p, hp⟩ | ⟨f, r, hr⟩
          · rw [hp] at h
            simp [Except.map] at h
          · rw [hr] at h
            simp [Except.map] at h
        · intro h
          exact absurd hc h
      · intro h
        exact absurd hc h
    · constructor
      · constructor
        · intro _
          exact hc
        · intro _
          unfold venmo.Transaction.to_lunchmoney_transactions
          rw [if_pos (by simp [hc])]
      · intro _ l
        unfold venmo.Transaction.to_lunchmoney_transactions
        rw [if_pos (by simp [hc])]
        simp
  · intro ts ec aid pre post t e hts hpre ht
    subst hts
    unfold normalizeAll
    rw [mapExcept_append_error _ pre post t e hpre ht]
    rfl

/-- Witness for C2: a one-good-one-bad batch aborts with the currency error
of the bad transaction, and the mismatch characterization holds there. -/
theorem currency_mismatch_iff_batch_abort_witness :
    normalizeAll [sampleTxn, sampleTxnE] USD 3 =
        .error (.WrongCurrencyError "$" "USD" "E") ∧
      (sampleTxnE.to_lunchmoney_transactions USD 3 =
          .error (.WrongCurrencyError USD.symbol USD.iso_alpha_code
            sampleTxnE.amount_total.currency)
        ↔ sampleTxnE.amount_total.currency ≠ USD.symbol) :=
  ⟨currency_mismatch_iff_batch_abort.2 [sampleTxn, sampleTxnE] USD 3 [sampleTxn] []
      sampleTxnE (.WrongCurrencyError "$" "USD" "E") rfl
      (fun x hx => by
        rcases List.mem_singleton.1 hx with rfl
        exact ⟨_, rfl⟩)
      rfl,
    (currency_mismatch_iff_batch_abort.1 sampleTxnE USD 3).1⟩

lemma to_lm_ok_shape (t : venmo.Transaction) (ec : Currency) (aid : ℕ)
    (l : List lunchmoney.Transaction)
    (h : t.to_lunchmoney_transactions ec aid = .ok l) :
    ∃ p, t.resolvePayee = .ok p ∧ t.amount_total.currency = ec.symbol ∧
      l = { date := t.datetime, payee := some p, amount := ⟨t.amount_total.val⟩,
            currency := some ec.iso_alpha_code.toLower, notes := t.note,
            asset_id := some aid, external_id := some (toString t.id),
            status := .Uncleared }
        :: (t.fundingShadow ec aid ++ t.destinationShadow ec aid) := by
  unfold venmo.Transaction.to_lunchmoney_transactions at h
  by_cases hc : t.amount_total.currency = ec.symbol
  · rw [if_neg (by simp [hc])] at h
    rcases resolvePayee_cases t with ⟨p, hp⟩ | ⟨f, r, hr⟩
    · rw [hp] at h
      simp only [Except.map, Except.ok.injEq] at h
      exact ⟨p, hp, hc, h.symm⟩
    · rw [hr] at h
      simp [Except.map] at h
  · rw [if_pos (by simp [hc])] at h
    simp at h

lemma string_ne_append_T (s : String) : s ≠ s ++ "T" := by
  intro h
  have := congrArg String.length h
  rw [String.length_append] at this
  have h1 : ("T" : String).length = 1 := rfl
  omega

lemma append_T_ne_append_TDEPOSIT (s : String) : s ++ "T" ≠ s ++ "TDEPOSIT" := by
  intro h
  have := congrArg String.length h
  rw [String.length_append, String.length_append] at this
  have h1 : ("T" : String).length = 1 := rfl
  have h2 : ("TDEPOSIT" : String).length = 8 := rfl
  omega

lemma string_ne_append_TDEPOSIT (s : String) : s ≠ s ++ "TDEPOSIT" := by
  intro h
  have := congrArg String.length h
  rw [String.length_append] at this
  have h2 : ("TDEPOSIT" : String).length = 8 := rfl
  omega

lemma fundingShadow_pos (t : venmo.Transaction) (ec : Currency) (aid : ℕ) (fs : String)
    (hfs : t.funding_source = some fs) (hne : fs ≠ "") (hnb : fs ≠ "Venmo balance") :
    t.fundingShadow ec aid = [fundingEntrySpec t ec aid fs] := by
  unfold venmo.Transaction.fundingShadow fundingEntrySpec
  rw [hfs]
  exact if_pos ⟨hne, hnb⟩

lemma fundingShadow_neg (t : venmo.Transaction) (ec : Currency) (aid : ℕ)
    (hno : ∀ fs, t.funding_source = some fs → fs = "" ∨ fs = "Venmo balance") :
    t.fundingShadow ec aid = [] := by
  unfold venmo.Transaction.fundingShadow
  cases hfs : t.funding_source with
  | none => rfl
  | some fs =>
    rcases hno fs hfs with h1 | h1 <;>
      exact if_neg (by simp [h1])

lemma destinationShadow_pos (t : venmo.Transaction) (ec : Currency) (aid : ℕ) (d : String)
    (hd : t.destination = some d) (hne : d ≠ "") (hnb : d ≠ "Venmo balance")
    (hty : t.type_ ≠ venmo.TransactionType.StandardTransfer) :
    t.destinationShadow ec aid = [destinationEntrySpec t ec aid d] := by
  unfold venmo.Transaction.destinationShadow destinationEntrySpec
  rw [hd]
  exact if_pos ⟨hne, hnb, hty⟩

lemma destinationShadow_neg (t : venmo.Transaction) (ec : Currency) (aid : ℕ)
    (hno : ∀ d, t.destination = some d →
      d = "" ∨ d = "Venmo balance" ∨ t.type_ = venmo.TransactionType.StandardTransfer) :
    t.destinationShadow ec aid = [] := by
  unfold venmo.Transaction.destinationShadow
  cases hd : t.destination with
  | none => rfl
  | some d =>
    rcases hno d hd with h1 | h1 | h1 <;>
      exact if_neg (by simp [h1])

lemma destinationShadow_cases (t : venmo.Transaction) (ec : Currency) (aid : ℕ) :
    t.destinationShadow ec aid = [] ∨
      ∃ d, t.destinationShadow ec aid = [destinationEntrySpec t ec aid d] := by
  unfold venmo.Transaction.destinationShadow destinationEntrySpec
  cases hd : t.destination with
  | none => exact Or.inl rfl
  | some d =>
    by_cases hcond : d ≠ "" ∧ d ≠ "Venmo balance"
        ∧ t.type_ ≠ venmo.TransactionType.StandardTransfer
    · exact Or.inr ⟨d, if_pos hcond⟩
    · exact Or.inl (if_neg hcond)

lemma fundingShadow_cases (t : venmo.Transaction) (ec : Currency) (aid : ℕ) :
    t.fundingShadow ec aid = [] ∨
      ∃ fs, t.fundingShadow ec aid = [fundingEntrySpec t ec aid fs] := by
  unfold venmo.Transaction.fundingShadow fundingEntrySpec
  cases hfs : t.funding_source with
  | none => exact Or.inl rfl
  | some fs =>
    by_cases hcond : fs ≠ "" ∧ fs ≠ "Venmo balance"
    · exact Or.inr ⟨fs, if_pos hcond⟩
    · exact Or.inl (if_neg hcond)

/-- Claim C3: for every transaction that passes the currency check and payee
resolution, a second shadow funding entry is appended exactly when the
funding source is present, nonempty and not the Venmo balance sentinel; it
carries the TRANSFER FROM payee, the negated primary amount, the derived
funding note when a note existed and no note otherwise, the external id with
suffix T, and the same date and asset id as the primary entry. -/
theorem shadow_funding_entry_iff (t : venmo.Transaction) (ec : Currency) (aid : ℕ)
    (l : List lunchmoney.Transaction)
    (h : t.to_lunchmoney_transactions ec aid = .ok l) :
    (∀ fs, t.funding_source = some fs → fs ≠ "" → fs ≠ "Venmo balance" →
      l[1]? = some (fundingEntrySpec t ec aid fs)
      ∧ ∃ e0, l[0]? = some e0 ∧ e0.date = t.datetime ∧ e0.asset_id = some aid
          ∧ e0.amount = ⟨t.amount_total.val⟩) ∧
    ((∀ fs, t.funding_source = some fs → fs = "" ∨ fs = "Venmo balance") →
      ∀ e ∈ l, e.external_id ≠ some (toString t.id ++ "T")) := by
  obtain ⟨p, hp, hc, hl⟩ := to_lm_ok_shape t ec aid l h
  constructor
  · intro fs hfs hne hnb
    rw [hl, fundingShadow_pos t ec aid fs hfs hne hnb]
    constructor
    · simp
    · refine ⟨({ date := t.datetime, payee := some p, amount := ⟨t.amount_total.val⟩,
                 currency := some ec.iso_alpha_code.toLower, notes := t.note,
                 asset_id := some aid, external_id := some (toString t.id),
                 status := .Uncleared } : lunchmoney.Transaction), by simp, rfl, rfl, rfl⟩
  · intro hno e he
    rw [hl, fundingShadow_neg t ec aid hno] at he
    simp only [List.nil_append, List.mem_cons] at he
    rcases he with rfl | he
    · simp only [ne_eq, Option.some.injEq]
      exact fun hcontra => string_ne_append_T _ hcontra
    · rcases destinationShadow_cases t ec aid with hds | ⟨d, hds⟩ <;> rw [hds] at he
      · simp at he
      · simp only [List.mem_singleton] at he
        subst he
        simp only [destinationEntrySpec, ne_eq, Option.some.injEq]
        exact fun hcontra => append_T_ne_append_TDEPOSIT _ hcontra.symm

/-- Claim C4: for every transaction that passes the currency check and payee
resolution, a shadow destination entry is appended as the last entry exactly
when the destination is present, nonempty, not the Venmo balance sentinel
and the type is not StandardTransfer; it carries the TRANSFER TO payee, the
negated primary amount, the derived deposit note when a note existed and no
note otherwise, and the external id with suffix TDEPOSIT; a
non-StandardTransfer with destination Venmo balance, and any
StandardTransfer, produce no such entry. -/
theorem shadow_destination_entry_iff (t : venmo.Transaction) (ec : Currency) (aid : ℕ)
    (l : List lunchmoney.Transaction)
    (h : t.to_lunchmoney_transactions ec aid = .ok l) :
    (∀ d, t.destination = some d → d ≠ "" → d ≠ "Venmo balance" →
      t.type_ ≠ venmo.TransactionType.StandardTransfer →
      l.getLast? = some (destinationEntrySpec t ec aid d)) ∧
    ((∀ d, t.destination = some d →
        d = "" ∨ d = "Venmo balance" ∨ t.type_ = venmo.TransactionType.StandardTransfer) →
      ∀ e ∈ l, e.external_id ≠ some (toString t.id ++ "TDEPOSIT")) := by
  obtain ⟨p, hp, hc, hl⟩ := to_lm_ok_shape t ec aid l h
  constructor
  · intro d hd hne hnb hty
    rw [hl, destinationShadow_pos t ec aid d hd hne hnb hty]
    rw [show ({ date := t.datetime, payee := some p, amount := ⟨t.amount_total.val⟩,
                currency := some ec.iso_alpha_code.toLower, notes := t.note,
                asset_id := some aid, external_id := some (toString t.id),
                status := .Uncleared } : lunchmoney.Transaction)
          :: (t.fundingShadow ec aid ++ [destinationEntrySpec t ec aid d])
        = (({ date := t.datetime, payee := some p, amount := ⟨t.amount_total.val⟩,
              currency := some ec.iso_alpha_code.toLower, notes := t.note,
              asset_id := some aid, external_id := some (toString t.id),
              status := .Uncleared } : lunchmoney.Transaction)
            :: t.fundingShadow ec aid) ++ [destinationEntrySpec t ec aid d]
      from by simp]
    exact List.getLast?_concat _
  · intro hno e he
    rw [hl, destinationShadow_neg t ec aid hno] at he
    simp only [List.append_nil, List.mem_cons] at he
    rcases he with rfl | he
    · simp only [ne_eq, Option.some.injEq]
      exact fun hcontra => string_ne_append_TDEPOSIT _ hcontra
    · rcases fundingShadow_cases t ec aid with hfs | ⟨fs, hfs⟩ <;> rw [hfs] at he
      · simp at he
      · simp only [List.mem_singleton] at he
        subst he
        simp only [fundingEntrySpec, ne_eq, Option.some.injEq]
        exact fun hcontra => append_T_ne_append_TDEPOSIT _ hcontra

/-- Witness for C3: the sample Charge funded from Chase yields the funding
shadow entry in second position. -/
theorem shadow_funding_entry_iff_witness :
    ([({ date := sampleTxn.datetime, payee := some "Alice",
         amount := ⟨sampleTxn.amount_total.val⟩,
         currency := some USD.iso_alpha_code.toLower, notes := sampleTxn.note,
         asset_id := some 3, external_id := some (toString sampleTxn.id),
         status := .Uncleared } : lunchmoney.Transaction),
      fundingEntrySpec sampleTxn USD 3 "Chase"])[1]?
      = some (fundingEntrySpec sampleTxn USD 3 "Chase") :=
  ((shadow_funding_entry_iff sampleTxn USD 3 _ rfl).1 "Chase" rfl
    (by decide) (by decide)).1

/-- Witness for C4: the sample Payment deposited to Checking yields the
destination shadow entry in last position. -/
theorem shadow_destination_entry_iff_witness :
    ([({ date := sampleTxnD.datetime, payee := some "Alice",
         amount := ⟨sampleTxnD.amount_total.val⟩,
         currency := some USD.iso_alpha_code.toLower, notes := sampleTxnD.note,
         asset_id := some 3, external_id := some (toString sampleTxnD.id),
         status := .Uncleared } : lunchmoney.Transaction),
      destinationEntrySpec sampleTxnD USD 3 "Checking"] :
        List lunchmoney.Transaction).getLast?
      = some (destinationEntrySpec sampleTxnD USD 3 "Checking") :=
  (shadow_destination_entry_iff sampleTxnD USD 3 _ rfl).1 "Checking" rfl
    (by decide) (by decide) (by decide)

lemma assembleRest_append (mid : List venmo.TransactionRecord) :
    ∀ (acc : List venmo.Transaction) (ts : List venmo.Transaction) (bb : venmo.Amount)
      (suffix : List venmo.TransactionRecord), suffix ≠ [] →
      mapExcept venmo.Transaction.try_from mid = .ok ts →
      venmo.assembleRest bb acc (mid ++ suffix) = venmo.assembleRest bb (acc ++ ts) suffix := by
  induction mid with
  | nil =>
    intro acc ts bb suffix _ hmap
    simp only [mapExcept, Except.ok.injEq] at hmap
    subst hmap
    simp
  | cons r mid' ih =>
    intro acc ts bb suffix hsuf hmap
    simp only [mapExcept] at hmap
    rcases hr : venmo.Transaction.try_from r with e | t <;> rw [hr] at hmap
    · simp at hmap
    · rcases hrec : mapExcept venmo.Transaction.try_from mid' with e' | ts' <;>
        rw [hrec] at hmap
      · simp [Except.map] at hmap
      · simp only [Except.map, Except.ok.injEq] at hmap
        subst hmap
        obtain ⟨c, cs, hcs⟩ : ∃ c cs, mid' ++ suffix = c :: cs := by
          cases hm : mid' ++ suffix with
          | nil =>
            rcases List.append_eq_nil.1 hm with ⟨-, h2⟩
            exact absurd h2 hsuf
          | cons c cs => exact ⟨c, cs, rfl⟩
        have step : venmo.assembleRest bb acc ((r :: mid') ++ suffix)
            = venmo.assembleRest bb (acc ++ [t]) (mid' ++ suffix) := by
          rw [List.cons_append, hcs]
          show (match venmo.Transaction.try_from r with
            | Except.error e => Except.error (venmo.AssembleError.ConversionError e r)
            | Except.ok tt => venmo.assembleRest bb (acc ++ [tt]) (c :: cs))
            = venmo.assembleRest bb (acc ++ [t]) (c :: cs)
          rw [hr]
        rw [step, ih (acc ++ [t]) ts' bb suffix hsuf hrec]
        simp

/-- Claim C5: a record sequence whose first record carries a beginning
balance, whose last record carries an ending balance and whose in-between
records all validate assembles into a statement holding exactly those
converted transactions in encounter order, with the ending balance taken
from the last record; with no in-between records the transaction list is
empty. -/
theorem assemble_statement_success (first : venmo.TransactionRecord)
    (mid : List venmo.TransactionRecord) (last : venmo.TransactionRecord)
    (bb eb : venmo.Amount) (ts : List venmo.Transaction)
    (hb : first.beginning_balance = some bb)
    (he : last.ending_balance = some eb)
    (hmid : mapExcept venmo.Transaction.try_from mid = .ok ts) :
    venmo.fetch_venmo_transactions (first :: mid ++ [last]) = .ok ⟨bb, eb, ts⟩ := by
  show (match first.beginning_balance with
    | none => Except.error (venmo.AssembleError.MissingBoundary "Beginning Balance")
    | some b => venmo.assembleRest b [] (mid ++ [last]))
    = Except.ok ⟨bb, eb, ts⟩
  rw [hb]
  show venmo.assembleRest bb [] (mid ++ [last]) = Except.ok ⟨bb, eb, ts⟩
  rw [assembleRest_append mid [] ts bb [last] (by simp) hmid]
  show (match last.ending_balance with
    | some e => Except.ok (venmo.Statement.mk bb e ([] ++ ts))
    | none => Except.error (venmo.AssembleError.MissingBoundary "Ending Balance"))
    = Except.ok (venmo.Statement.mk bb eb ts)
  rw [he]
  simp

/-- Witness for C5: one data row between the two boundary rows assembles to
a one-transaction statement. -/
theorem assemble_statement_success_witness :
    venmo.fetch_venmo_transactions [sampleBeginRecord, sampleRecord, sampleEndRecord]
      = .ok ⟨⟨"$", ⟨false, 10⟩⟩, ⟨"$", ⟨false, 15⟩⟩, [sampleTxn]⟩ :=
  assemble_statement_success sampleBeginRecord [sampleRecord] sampleEndRecord
    ⟨"$", ⟨false, 10⟩⟩ ⟨"$", ⟨false, 15⟩⟩ [sampleTxn] rfl rfl rfl

lemma try_from_missing_field (r : venmo.TransactionRecord)
    (h : r.id = none ∨ r.datetime = none ∨ r.type_ = none ∨ r.status = none
      ∨ r.amount_total = none) :
    ∃ fname, venmo.Transaction.try_from r = .error (.InvalidRecord fname r) ∧
      ((fname = "id" ∧ r.id = none) ∨ (fname = "datetime" ∧ r.datetime = none) ∨
       (fname = "type_" ∧ r.type_ = none) ∨ (fname = "status" ∧ r.status = none) ∨
       (fname = "amount_total" ∧ r.amount_total = none)) := by
  unfold venmo.Transaction.try_from
  cases hid : r.id with
  | none => exact ⟨"id", rfl, Or.inl ⟨rfl, rfl⟩⟩
  | some i =>
    cases hdt : r.datetime with
    | none => exact ⟨"datetime", rfl, Or.inr (Or.inl ⟨rfl, rfl⟩)⟩
    | some dt =>
      cases hty : r.type_ with
      | none => exact ⟨"type_", rfl, Or.inr (Or.inr (Or.inl ⟨rfl, rfl⟩))⟩
      | some ty =>
        cases hst : r.status with
        | none => exact ⟨"status", rfl, Or.inr (Or.inr (Or.inr (Or.inl ⟨rfl, rfl⟩)))⟩
        | some st =>
          cases hamt : r.amount_total with
          | none =>
            exact ⟨"amount_total", rfl, Or.inr (Or.inr (Or.inr (Or.inr ⟨rfl, rfl⟩)))⟩
          | some amt =>
            exfalso
            rcases h with h1 | h1 | h1 | h1 | h1 <;> simp_all

/-- Claim C6: a record sequence whose first record lacks the beginning
balance fails with the boundary error naming Beginning Balance; one whose
in-between records validate but whose last record lacks the ending balance
fails with the boundary error naming Ending Balance; a non-boundary record
that fails conversion aborts the whole assembly with the conversion error
carrying the raw record; and a record missing one of identifier, timestamp,
type, status or total amount fails conversion with an error carrying that
field name and the record. -/
theorem assemble_boundary_and_record_errors :
    (∀ (r : venmo.TransactionRecord) (rest : List venmo.TransactionRecord),
      r.beginning_balance = none →
      venmo.fetch_venmo_transactions (r :: rest)
        = .error (.MissingBoundary "Beginning Balance")) ∧
    (∀ (first : venmo.TransactionRecord) (mid : List venmo.TransactionRecord)
      (last : venmo.TransactionRecord) (bb : venmo.Amount) (ts : List venmo.Transaction),
      first.beginning_balance = some bb →
      mapExcept venmo.Transaction.try_from mid = .ok ts →
      last.ending_balance = none →
      venmo.fetch_venmo_transactions (first :: mid ++ [last])
        = .error (.MissingBoundary "Ending Balance")) ∧
    (∀ (first : venmo.TransactionRecord) (mid1 : List venmo.TransactionRecord)
      (r : venmo.TransactionRecord) (mid2 : List venmo.TransactionRecord)
      (last : venmo.TransactionRecord) (bb : venmo.Amount)
      (ts1 : List venmo.Transaction) (e : venmo.Error),
      first.beginning_balance = some bb →
      mapExcept venmo.Transaction.try_from mid1 = .ok ts1 →
      venmo.Transaction.try_from r = .error e →
      venmo.fetch_venmo_transactions (first :: (mid1 ++ (r :: (mid2 ++ [last]))))
        = .error (.ConversionError e r)) ∧
    (∀ r : venmo.TransactionRecord,
      (r.id = none ∨ r.datetime = none ∨ r.type_ = none ∨ r.status = none
        ∨ r.amount_total = none) →
      ∃ fname, venmo.Transaction.try_from r = .error (.InvalidRecord fname r) ∧
        ((fname = "id" ∧ r.id = none) ∨ (fname = "datetime" ∧ r.datetime = none) ∨
         (fname = "type_" ∧ r.type_ = none) ∨ (fname = "status" ∧ r.status = none) ∨
         (fname = "amount_total" ∧ r.amount_total = none))) := by
  refine ⟨?_, ?_, ?_, try_from_missing_field⟩
  · intro r rest h
    show (match r.beginning_balance with
      | none => Except.error (venmo.AssembleError.MissingBoundary "Beginning Balance")
      | some b => venmo.assembleRest b [] rest)
      = Except.error (venmo.AssembleError.MissingBoundary "Beginning Balance")
    rw [h]
  · intro first mid last bb ts hb hmid hend
    show (match first.beginning_balance with
      | none => Except.error (venmo.AssembleError.MissingBoundary "Beginning Balance")
      | some b => venmo.assembleRest b [] (mid ++ [last]))
      = Except.error (venmo.AssembleError.MissingBoundary "Ending Balance")
    rw [hb]
    show venmo.assembleRest bb [] (mid ++ [last])
      = Except.error (venmo.AssembleError.MissingBoundary "Ending Balance")
    rw [assembleRest_append mid [] ts bb [last] (by simp) hmid]
    show (match last.ending_balance with
      | some eb => Except.ok (venmo.Statement.mk bb eb ([] ++ ts))
      | none => Except.error (venmo.AssembleError.MissingBoundary "Ending Balance"))
      = Except.error (venmo.AssembleError.MissingBoundary "Ending Balance")
    rw [hend]
  · intro first mid1 r mid2 last bb ts1 e hb hmid htr
    show (match first.beginning_balance with
      | none => Except.error (venmo.AssembleError.MissingBoundary "Beginning Balance")
      | some b => venmo.assembleRest b [] (mid1 ++ (r :: (mid2 ++ [last]))))
      = Except.error (venmo.AssembleError.ConversionError e r)
    rw [hb]
    show venmo.assembleRest bb [] (mid1 ++ (r :: (mid2 ++ [last])))
      = Except.error (venmo.AssembleError.ConversionError e r)
    rw [assembleRest_append mid1 [] ts1 bb (r :: (mid2 ++ [last])) (by simp) hmid]
    obtain ⟨c, cs, hcs⟩ : ∃ c cs, mid2 ++ [last] = c :: cs := by
      cases hm : mid2 ++ [last] with
      | nil => simp at hm
      | cons c cs => exact ⟨c, cs, rfl⟩
    rw [hcs]
    show (match venmo.Transaction.try_from r with
      | Except.error e => Except.error (venmo.AssembleError.ConversionError e r)
      | Except.ok tt => venmo.assembleRest bb (([] ++ ts1) ++ [tt]) (c :: cs))
      = Except.error (venmo.AssembleError.ConversionError e r)
    rw [htr]

/-- Witness for C6 at concrete record sequences. -/
theorem assemble_boundary_and_record_errors_witness :
    venmo.fetch_venmo_transactions [sampleRecord]
        = .error (.MissingBoundary "Beginning Balance") ∧
    venmo.fetch_venmo_transactions [sampleBeginRecord, sampleRecord, sampleBeginRecord]
        = .error (.MissingBoundary "Ending Balance") ∧
    venmo.fetch_venmo_transactions [sampleBeginRecord, sampleBadRecord, sampleEndRecord]
        = .error (.ConversionError (.InvalidRecord "type_" sampleBadRecord) sampleBadRecord) ∧
    ∃ fname, venmo.Transaction.try_from sampleBadRecord
        = .error (.InvalidRecord fname sampleBadRecord) ∧
      ((fname = "id" ∧ sampleBadRecord.id = none) ∨
       (fname = "datetime" ∧ sampleBadRecord.datetime = none) ∨
       (fname = "type_" ∧ sampleBadRecord.type_ = none) ∨
       (fname = "status" ∧ sampleBadRecord.status = none) ∨
       (fname = "amount_total" ∧ sampleBadRecord.amount_total = none)) :=
  ⟨assemble_boundary_and_record_errors.1 sampleRecord [] rfl,
   assemble_boundary_and_record_errors.2.1 sampleBeginRecord [sampleRecord]
     sampleBeginRecord ⟨"$", ⟨false, 10⟩⟩ [sampleTxn] rfl rfl rfl,
   assemble_boundary_and_record_errors.2.2.1 sampleBeginRecord [] sampleBadRecord []
     sampleEndRecord ⟨"$", ⟨false, 10⟩⟩ []
     (.InvalidRecord "type_" sampleBadRecord) rfl rfl rfl,
   assemble_boundary_and_record_errors.2.2.2 sampleBadRecord
     (Or.inr (Or.inr (Or.inl rfl)))⟩

lemma chunksOf_nil {α : Type} (n : ℕ) : chunksOf n ([] : List α) = [] := by
  rw [chunksOf.eq_def]

lemma chunksOf_cons {α : Type} (n : ℕ) (x : α) (xs : List α) :
    chunksOf n (x :: xs) = (x :: xs.take (n - 1)) :: chunksOf n (xs.drop (n - 1)) := by
  rw [chunksOf.eq_def]

lemma chunksOf_step {α : Type} (n : ℕ) (hn : 0 < n) (l : List α) (hl : l ≠ []) :
    chunksOf n l = l.take n :: chunksOf n (l.drop n) := by
  cases l with
  | nil => contradiction
  | cons x xs =>
    rw [chunksOf_cons]
    cases n with
    | zero => omega
    | succ m => simp

lemma chunksOf_flatten {α : Type} (n : ℕ) (l : List α) :
    (chunksOf n l).flatten = l := by
  have H : ∀ (len : ℕ) (l : List α), l.length = len → (chunksOf n l).flatten = l := by
    intro len
    induction len using Nat.strong_induction_on with
    | _ len ih =>
      intro l hl
      cases l with
      | nil => rw [chunksOf_nil]; rfl
      | cons x xs =>
        have hlen : (xs.drop (n - 1)).length < len := by
          rw [List.length_drop]
          simp only [List.length_cons] at hl
          omega
        rw [chunksOf_cons]
        simp only [List.flatten_cons]
        rw [ih _ hlen _ rfl]
        simp [List.cons_append, List.take_append_drop]
  exact H l.length l rfl

lemma chunksOf_sizes {α : Type} (n : ℕ) (hn : 0 < n) (l : List α) :
    ∀ c ∈ chunksOf n l, c ≠ [] ∧ c.length ≤ n := by
  have H : ∀ (len : ℕ) (l : List α), l.length = len →
      ∀ c ∈ chunksOf n l, c ≠ [] ∧ c.length ≤ n := by
    intro len
    induction len using Nat.strong_induction_on with
    | _ len ih =>
      intro l hl c hc
      cases l with
      | nil => rw [chunksOf_nil] at hc; simp at hc
      | cons x xs =>
        rw [chunksOf_cons] at hc
        rcases List.mem_cons.1 hc with rfl | hc
        · refine ⟨by simp, ?_⟩
          simp only [List.length_cons, List.length_take]
          omega
        · have hlen : (xs.drop (n - 1)).length < len := by
            rw [List.length_drop]
            simp only [List.length_cons] at hl
            omega
          exact ih _ hlen _ rfl c hc
  exact H l.length l rfl

lemma submitChunks_all_ok {ε : Type} (insert : List lunchmoney.Transaction → Except ε (List ℕ))
    (g : List lunchmoney.Transaction → List ℕ) (hins : ∀ c, insert c = .ok (g c)) :
    ∀ (cs : List (List lunchmoney.Transaction)) (acc : List ℕ),
      cs.foldlM (fun acc chunk => (insert chunk).map (fun ids => acc ++ ids)) acc
        = .ok (acc ++ (cs.map g).flatten) := by
  intro cs
  induction cs with
  | nil =>
    intro acc
    show Except.ok acc = Except.ok (acc ++ (List.map g []).flatten)
    simp
  | cons c cs ih =>
    intro acc
    rw [List.foldlM_cons, hins c]
    show (Except.ok (acc ++ g c) >>= fun acc => cs.foldlM _ acc) = _
    rw [show ∀ (x : List ℕ) (f : List ℕ → Except ε (List ℕ)),
        (Except.ok x >>= f) = f x from fun x f => rfl]
    rw [ih (acc ++ g c)]
    simp

lemma submitChunks_first_error {ε : Type}
    (insert : List lunchmoney.Transaction → Except ε (List ℕ))
    (cs1 : List (List lunchmoney.Transaction)) (c : List lunchmoney.Transaction)
    (cs2 : List (List lunchmoney.Transaction)) (e : ε)
    (h1 : ∀ b ∈ cs1, ∃ ids, insert b = .ok ids) (hc : insert c = .error e) :
    ∀ acc, (cs1 ++ c :: cs2).foldlM
        (fun acc chunk => (insert chunk).map (fun ids => acc ++ ids)) acc = .error e := by
  induction cs1 with
  | nil =>
    intro acc
    rw [List.nil_append, List.foldlM_cons, hc]
    rfl
  | cons b cs1 ih =>
    intro acc
    obtain ⟨ids, hb⟩ := h1 b (by simp)
    rw [List.cons_append, List.foldlM_cons, hb]
    show (Except.ok (acc ++ ids) >>= fun acc => (cs1 ++ c :: cs2).foldlM _ acc) = _
    rw [show ∀ (x : List ℕ) (f : List ℕ → Except ε (List ℕ)),
        (Except.ok x >>= f) = f x from fun x f => rfl]
    exact ih (fun y hy => h1 y (by simp [hy])) (acc ++ ids)

lemma submittedBatches_split {ε : Type}
    (insert : List lunchmoney.Transaction → Except ε (List ℕ))
    (cs1 : List (List lunchmoney.Transaction)) (c : List lunchmoney.Transaction)
    (cs2 : List (List lunchmoney.Transaction)) (e : ε)
    (h1 : ∀ b ∈ cs1, ∃ ids, insert b = .ok ids) (hc : insert c = .error e) :
    submittedBatches insert (cs1 ++ c :: cs2) = cs1 ++ [c] := by
  induction cs1 with
  | nil =>
    rw [List.nil_append]
    unfold submittedBatches
    rw [hc]
    rfl
  | cons b cs1 ih =>
    obtain ⟨ids, hb⟩ := h1 b (by simp)
    rw [List.cons_append]
    unfold submittedBatches
    rw [hb]
    rw [ih (fun y hy => h1 y (by simp [hy]))]
    rfl

lemma chunksOf_120 {α : Type} (l : List α) (h : l.length = 120) :
    (chunksOf 50 l).map List.length = [50, 50, 20] := by
  have h1 : l ≠ [] := by
    intro he
    rw [he] at h
    simp at h
  have h2 : l.drop 50 ≠ [] := by
    intro he
    have := congrArg List.length he
    rw [List.length_drop, h] at this
    simp at this
  have h3 : (l.drop 50).drop 50 ≠ [] := by
    intro he
    have := congrArg List.length he
    rw [List.length_drop, List.length_drop, h] at this
    simp at this
  have h4 : ((l.drop 50).drop 50).drop 50 = [] := by
    apply List.eq_nil_of_length_eq_zero
    rw [List.length_drop, List.length_drop, List.length_drop, h]
  rw [chunksOf_step 50 (by norm_num) l h1,
    chunksOf_step 50 (by norm_num) _ h2,
    chunksOf_step 50 (by norm_num) _ h3, h4, chunksOf_nil]
  simp [List.length_take, List.length_drop, h]

/-- Claim C9: submission chunks the flattened ordered entry list into
consecutive batches of at most 50 preserving order; 120 entries produce
exactly three batches of sizes 50, 50 and 20; when every call succeeds the
returned identifiers are the per-batch identifiers concatenated in batch
order, preserving input order for per-entry identifiers; and a failing batch
aborts the remaining batches while the batches before and including it are
the ones actually submitted. -/
theorem batch_submission (entries : List lunchmoney.Transaction) :
    ((chunksOf 50 entries).flatten = entries ∧
      ∀ c ∈ chunksOf 50 entries, c ≠ [] ∧ c.length ≤ 50) ∧
    (entries.length = 120 → (chunksOf 50 entries).map List.length = [50, 50, 20]) ∧
    (∀ (ε : Type) (insert : List lunchmoney.Transaction → Except ε (List ℕ))
      (g : List lunchmoney.Transaction → List ℕ),
      (∀ c, insert c = .ok (g c)) →
      sync_venmo_transactions insert entries
        = .ok ((chunksOf 50 entries).map g).flatten) ∧
    (∀ (ε : Type) (insert : List lunchmoney.Transaction → Except ε (List ℕ))
      (idOf : lunchmoney.Transaction → ℕ),
      (∀ c, insert c = .ok (c.map idOf)) →
      sync_venmo_transactions insert entries = .ok (entries.map idOf)) ∧
    (∀ (ε : Type) (insert : List lunchmoney.Transaction → Except ε (List ℕ))
      (cs1 : List (List lunchmoney.Transaction)) (c : List lunchmoney.Transaction)
      (cs2 : List (List lunchmoney.Transaction)) (e : ε),
      chunksOf 50 entries = cs1 ++ c :: cs2 →
      (∀ b ∈ cs1, ∃ ids, insert b = .ok ids) →
      insert c = .error e →
      sync_venmo_transactions insert entries = .error e ∧
        submittedBatches insert (chunksOf 50 entries) = cs1 ++ [c]) := by
  refine ⟨⟨chunksOf_flatten 50 entries, chunksOf_sizes 50 (by norm_num) entries⟩,
    chunksOf_120 entries, ?_, ?_, ?_⟩
  · intro ε insert g hins
    unfold sync_venmo_transactions submitChunks
    rw [submitChunks_all_ok insert g hins (chunksOf 50 entries) []]
    simp
  · intro ε insert idOf hins
    unfold sync_venmo_transactions submitChunks
    rw [submitChunks_all_ok insert (fun c => c.map idOf) hins (chunksOf 50 entries) []]
    simp only [List.nil_append, Except.ok.injEq]
    rw [← List.map_flatten, chunksOf_flatten]
  · intro ε insert cs1 c cs2 e hchunks h1 hc
    constructor
    · unfold sync_venmo_transactions submitChunks
      rw [hchunks]
      exact submitChunks_first_error insert cs1 c cs2 e h1 hc []
    · rw [hchunks]
      exact submittedBatches_split insert cs1 c cs2 e h1 hc

/-- Witness for C9: 120 entries chunk into sizes 50, 50, 20, and an
all-success submission returns the identifiers in input order. -/
theorem batch_submission_witness :
    (chunksOf 50 (List.replicate 120 emptyEntry)).map List.length = [50, 50, 20] ∧
    sync_venmo_transactions
        (fun c => (.ok (c.map (fun _ => 0)) : Except Unit (List ℕ)))
        (List.replicate 120 emptyEntry)
      = .ok ((List.replicate 120 emptyEntry).map (fun _ => 0)) :=
  ⟨(batch_submission (List.replicate 120 emptyEntry)).2.1 (by simp),
   (batch_submission (List.replicate 120 emptyEntry)).2.2.2.1 Unit
     (fun c => .ok (c.map (fun _ => 0))) (fun _ => 0) (fun _ => rfl)⟩

lemma parseFrac_isSome_iff : ∀ (l : List Char) (v k : ℕ),
    (venmo.parseFrac l v k).isSome = true ↔ ∀ c ∈ l, c.isDigit = true := by
  intro l
  induction l with
  | nil => intro v k; simp [venmo.parseFrac]
  | cons c l ih =>
    intro v k
    by_cases hc : c.isDigit <;> simp [venmo.parseFrac, hc, ih]

lemma parseFrac_some_len : ∀ (l : List Char) (v k : ℕ) (p : ℕ × ℕ),
    venmo.parseFrac l v k = some p → p.2 = k + l.length := by
  intro l
  induction l with
  | nil =>
    intro v k p hp
    simp only [venmo.parseFrac, Option.some.injEq] at hp
    subst hp
    simp
  | cons c l ih =>
    intro v k p hp
    by_cases hc : c.isDigit
    · rw [show venmo.parseFrac (c :: l) v k
          = venmo.parseFrac l (10 * v + venmo.charVal c) (k + 1) from by
        simp [venmo.parseFrac, hc]] at hp
      have := ih _ _ _ hp
      simp only [List.length_cons] at *
      omega
    · simp [venmo.parseFrac, hc] at hp

lemma count_eq_zero_of_all_digits (l : List Char) (h : ∀ c ∈ l, c.isDigit = true) :
    l.count '.' = 0 := by
  rw [List.count_eq_zero]
  intro hmem
  have := h '.' hmem
  simp at this

lemma all_digits_of_parts (l : List Char) (h1 : ∀ c ∈ l, venmo.digitOrDot c = true)
    (h2 : l.count '.' = 0) : ∀ c ∈ l, c.isDigit = true := by
  intro c hc
  have h3 := h1 c hc
  simp only [venmo.digitOrDot, Bool.or_eq_true, decide_eq_true_eq] at h3
  rcases h3 with h | h
  · exact h
  · exfalso
    subst h
    rw [List.count_eq_zero] at h2
    exact h2 hc

lemma parseIntPart_isSome_iff : ∀ (l : List Char) (v : ℕ) (seen : Bool),
    (venmo.parseIntPart l v seen).isSome = true ↔
      ((∀ c ∈ l, venmo.digitOrDot c = true) ∧ l.count '.' ≤ 1
        ∧ (seen = true ∨ ∃ c ∈ l, c.isDigit = true)) := by
  intro l
  induction l with
  | nil =>
    intro v seen
    cases seen <;> simp [venmo.parseIntPart]
  | cons c l ih =>
    intro v seen
    by_cases hc : c.isDigit
    · rw [show venmo.parseIntPart (c :: l) v seen
          = venmo.parseIntPart l (10 * v + venmo.charVal c) true from by
        simp [venmo.parseIntPart, hc]]
      rw [ih]
      have hcd : c ≠ '.' := by
        intro hcontra
        subst hcontra
        simp at hc
      constructor
      · rintro ⟨ha, hcount, -⟩
        refine ⟨?_, ?_, Or.inr ⟨c, by simp, hc⟩⟩
        · intro x hx
          rcases List.mem_cons.1 hx with rfl | hx
          · simp [venmo.digitOrDot, hc]
          · exact ha x hx
        · rw [List.count_cons]
          simp [hcd, hcount]
      · rintro ⟨ha, hcount, -⟩
        refine ⟨fun x hx => ha x (by simp [hx]), ?_, Or.inl rfl⟩
        rw [List.count_cons] at hcount
        simp [hcd] at hcount
        exact hcount
    · by_cases hdot : c = '.'
      · subst hdot
        rcases hfrac : venmo.parseFrac l 0 0 with _ | p
        · rw [show venmo.parseIntPart ('.' :: l) v seen = none from by
            simp [venmo.parseIntPart, hfrac]]
          have hnd : ¬∀ x ∈ l, x.isDigit = true := by
            intro hall
            have := (parseFrac_isSome_iff l 0 0).2 hall
            rw [hfrac] at this
            simp at this
          simp only [Option.isSome_none, Bool.false_eq_true, false_iff]
          rintro ⟨ha, hcount, -⟩
          apply hnd
          apply all_digits_of_parts
          · intro x hx
            exact ha x (by simp [hx])
          · simp [List.count_cons] at hcount
            omega
        · rw [show venmo.parseIntPart ('.' :: l) v seen
              = if seen || decide (0 < p.2) then some ((v : ℚ) + (p.1 : ℚ) / 10 ^ p.2)
                else none from by
            simp [venmo.parseIntPart, hfrac]]
          have hdigits : ∀ x ∈ l, x.isDigit = true :=
            (parseFrac_isSome_iff l 0 0).1 (by rw [hfrac]; rfl)
          have hlen : p.2 = l.length := by
            have := parseFrac_some_len l 0 0 p hfrac
            omega
          have hrhs : ((∀ x ∈ '.' :: l, venmo.digitOrDot x = true)
              ∧ List.count '.' ('.' :: l) ≤ 1
              ∧ (seen = true ∨ ∃ x ∈ '.' :: l, x.isDigit = true))
              ↔ (seen = true ∨ l ≠ []) := by
            constructor
            · rintro ⟨-, -, hseen⟩
              rcases hseen with h | ⟨x, hx, hxd⟩
              · exact Or.inl h
              · rcases List.mem_cons.1 hx with rfl | hx
                · simp at hxd
                · exact Or.inr (List.ne_nil_of_mem hx)
            · intro hs
              refine ⟨?_, ?_, ?_⟩
              · intro x hx
                rcases List.mem_cons.1 hx with rfl | hx
                · simp [venmo.digitOrDot]
                · simp [venmo.digitOrDot, hdigits x hx]
              · simp [List.count_cons, count_eq_zero_of_all_digits l hdigits]
              · rcases hs with h | h
                · exact Or.inl h
                · rcases List.exists_mem_of_ne_nil _ h with ⟨x, hx⟩
                  exact Or.inr ⟨x, by simp [hx], hdigits x hx⟩
          rw [hrhs]
          by_cases hcond : (seen || decide (0 < p.2)) = true
          · rw [if_pos hcond]
            simp only [Option.isSome_some, true_iff]
            rw [Bool.or_eq_true, decide_eq_true_eq] at hcond
            rcases hcond with h | h
            · exact Or.inl h
            · refine Or.inr ?_
              rw [hlen] at h
              exact List.length_pos.1 h
          · rw [if_neg hcond]
            simp only [Option.isSome_none, Bool.false_eq_true, false_iff]
            intro hs
            apply hcond
            rw [Bool.or_eq_true, decide_eq_true_eq]
            rcases hs with h | h
            · exact Or.inl h
            · refine Or.inr ?_
              rw [hlen]
              exact List.length_pos.2 h
      · rw [show venmo.parseIntPart (c :: l) v seen = none from by
          simp [venmo.parseIntPart, hc, hdot]]
        simp only [Option.isSome_none, Bool.false_eq_true, false_iff]
        rintro ⟨ha, -, -⟩
        have := ha c (by simp)
        simp [venmo.digitOrDot, hc, hdot] at this

lemma parseNum_isSome_iff (l : List Char) :
    (venmo.parseNum l).isSome = true ↔ numOK l = true := by
  unfold venmo.parseNum numOK
  rw [parseIntPart_isSome_iff]
  simp only [Bool.and_eq_true, List.all_eq_true, List.any_eq_true, decide_eq_true_eq]
  constructor
  · rintro ⟨ha, hc, hd⟩
    rcases hd with h | h
    · simp at h
    · exact ⟨⟨ha, h⟩, hc⟩
  · rintro ⟨⟨ha, hd⟩, hc⟩
    exact ⟨ha, hc, Or.inr hd⟩

lemma numOK_parts {l : List Char} (h : numOK l = true) :
    l.all venmo.digitOrDot = true ∧ l.any Char.isDigit = true ∧ l.count '.' ≤ 1 := by
  simp only [numOK, Bool.and_eq_true, decide_eq_true_eq] at h
  exact ⟨h.1.1, h.1.2, h.2⟩

lemma numOK_of_parts {l : List Char} (h1 : l.all venmo.digitOrDot = true)
    (h2 : l.any Char.isDigit = true) (h3 : l.count '.' ≤ 1) : numOK l = true := by
  simp only [numOK, Bool.and_eq_true, decide_eq_true_eq]
  exact ⟨⟨h1, h2⟩, h3⟩

lemma numOK_ne_nil {l : List Char} (h : numOK l = true) : l ≠ [] := by
  intro he
  subst he
  simp [numOK] at h

lemma signChar_facts {c : Char} (h : venmo.isSignChar c = true) :
    c.isDigit = false ∧ c ≠ ' ' := by
  simp only [venmo.isSignChar, Bool.or_eq_true, decide_eq_true_eq] at h
  rcases h with rfl | rfl <;> exact ⟨by decide, by decide⟩

lemma digitOrDot_ne_space {c : Char} (h : venmo.digitOrDot c = true) : c ≠ ' ' := by
  simp only [venmo.digitOrDot, Bool.or_eq_true, decide_eq_true_eq] at h
  rcases h with h | rfl
  · intro hcontra
    subst hcontra
    simp at h
  · decide

lemma numOK_shift {c : Char} {ds : List Char} (h : numOK (c :: ds) = true)
    (hc : c.isDigit = false) : c = '.' ∧ numOK ds = true ∧ ds ≠ [] := by
  obtain ⟨hall, hany, hcount⟩ := numOK_parts h
  simp only [List.all_cons, Bool.and_eq_true] at hall
  have hdot : c = '.' := by
    have := hall.1
    simp only [venmo.digitOrDot, Bool.or_eq_true, decide_eq_true_eq, hc] at this
    rcases this with h1 | h1
    · simp at h1
    · exact h1
  subst hdot
  simp only [List.count_cons] at hcount
  simp only [List.any_cons, Bool.or_eq_true] at hany
  have hany2 : ds.any Char.isDigit = true := by
    rcases hany with h1 | h1
    · simp at h1
    · exact h1
  have hcount2 : ds.count '.' ≤ 1 := by
    simp at hcount
    omega
  refine ⟨rfl, numOK_of_parts hall.2 hany2 hcount2, ?_⟩
  intro he
  subst he
  simp at hany2

lemma mkMarker_sound {l : List Char} {m : Char} {ds : List Char}
    (h : venmo.mkMarker l = some (m, ds)) :
    l = m :: ds ∧ m.isDigit = false ∧ ds ≠ [] ∧ ds.all venmo.digitOrDot = true := by
  cases l with
  | nil => simp [venmo.mkMarker] at h
  | cons c u =>
    simp only [venmo.mkMarker] at h
    by_cases hcond : (!c.isDigit && !u.isEmpty && u.all venmo.digitOrDot) = true
    · rw [if_pos hcond] at h
      simp only [Option.some.injEq, Prod.mk.injEq] at h
      obtain ⟨rfl, rfl⟩ := h
      simp only [Bool.and_eq_true, Bool.not_eq_true'] at hcond
      refine ⟨rfl, hcond.1.1, ?_, hcond.2⟩
      intro he
      subst he
      simp at hcond
    · rw [if_neg hcond] at h
      simp at h

lemma mkMarker_complete {m : Char} {ds : List Char} (h1 : m.isDigit = false)
    (h2 : ds ≠ []) (h3 : ds.all venmo.digitOrDot = true) :
    venmo.mkMarker (m :: ds) = some (m, ds) := by
  simp only [venmo.mkMarker]
  rw [if_pos]
  simp only [Bool.and_eq_true, Bool.not_eq_true']
  refine ⟨⟨h1, ?_⟩, h3⟩
  cases ds with
  | nil => exact absurd rfl h2
  | cons x xs => rfl

lemma subMatch_sound {l : List Char} {m : Char} {ds : List Char}
    (h : venmo.subMatch l = some (m, ds)) :
    (l = m :: ds ∨ l = ' ' :: m :: ds) ∧ m.isDigit = false ∧ ds ≠ []
      ∧ ds.all venmo.digitOrDot = true := by
  cases l with
  | nil => simp [venmo.subMatch] at h
  | cons c u =>
    simp only [venmo.subMatch] at h
    by_cases hsp : c = ' '
    · rw [if_pos hsp] at h
      subst hsp
      rcases hmk : venmo.mkMarker u with _ | p
      · rw [hmk] at h
        simp only [Option.orElse] at h
        obtain ⟨he, hm, hne, hall⟩ := mkMarker_sound h
        exact ⟨Or.inl he, hm, hne, hall⟩
      · rw [hmk] at h
        simp only [Option.orElse] at h
        obtain rfl : p = (m, ds) := by
          cases h
          rfl
        obtain ⟨he, hm, hne, hall⟩ := mkMarker_sound hmk
        exact ⟨Or.inr (by rw [he]), hm, hne, hall⟩
    · rw [if_neg hsp] at h
      obtain ⟨he, hm, hne, hall⟩ := mkMarker_sound h
      exact ⟨Or.inl he, hm, hne, hall⟩

lemma mkMarker_of_numOK {l : List Char} (h : numOK l = true) :
    venmo.mkMarker l = none ∨
      ∃ m ds, venmo.mkMarker l = some (m, ds) ∧ numOK ds = true := by
  cases l with
  | nil => exact absurd rfl (numOK_ne_nil h)
  | cons c ds =>
    by_cases hc : c.isDigit
    · refine Or.inl ?_
      simp [venmo.mkMarker, hc]
    · obtain ⟨hdot, hds, hne⟩ := numOK_shift h (by simp [hc])
      refine Or.inr ⟨c, ds, ?_, hds⟩
      exact mkMarker_complete (by simp [hc]) hne (numOK_parts hds).1

lemma markerNumOK_cons {m : Char} {num : List Char} :
    markerNumOK (m :: num) = true ↔ (m.isDigit = false ∧ numOK num = true) := by
  simp [markerNumOK, Bool.and_eq_true, Bool.not_eq_true']

lemma subMatch_good {l : List Char} (h : spaceMarkerNumOK l = true) :
    ∃ m ds, venmo.subMatch l = some (m, ds) ∧ numOK ds = true := by
  cases l with
  | nil => simp [spaceMarkerNumOK] at h
  | cons c u =>
    simp only [spaceMarkerNumOK] at h
    by_cases hsp : c = ' '
    · rw [if_pos hsp] at h
      subst hsp
      simp only [venmo.subMatch, if_pos rfl]
      rw [Bool.or_eq_true] at h
      rcases h with h | h
      · cases u with
        | nil => simp [markerNumOK] at h
        | cons m num =>
          rw [markerNumOK_cons] at h
          rw [mkMarker_complete h.1 (numOK_ne_nil h.2) (numOK_parts h.2).1]
          exact ⟨m, num, by simp [Option.orElse], h.2⟩
      · rw [markerNumOK_cons] at h
        rcases mkMarker_of_numOK h.2 with hn | ⟨m, ds, hs, hds⟩
        · rw [hn]
          refine ⟨' ', u, ?_, h.2⟩
          simp only [Option.orElse]
          exact mkMarker_complete h.1 (numOK_ne_nil h.2) (numOK_parts h.2).1
        · rw [hs]
          exact ⟨m, ds, by simp [Option.orElse], hds⟩
    · rw [if_neg hsp] at h
      simp only [venmo.subMatch, if_neg hsp]
      rw [markerNumOK_cons] at h
      exact ⟨c, u, mkMarker_complete h.1 (numOK_ne_nil h.2) (numOK_parts h.2).1, h.2⟩

lemma spaceMarkerNumOK_all {l : List Char} (hall : l.all venmo.digitOrDot = true) :
    spaceMarkerNumOK l = markerNumOK l := by
  cases l with
  | nil => rfl
  | cons c u =>
    simp only [spaceMarkerNumOK]
    rw [if_neg]
    simp only [List.all_cons, Bool.and_eq_true] at hall
    exact digitOrDot_ne_space hall.1

lemma matchAmount_good {l : List Char} (h : amendedPatternL l = true) :
    ∃ sgn m ds, venmo.matchAmount l = some (sgn, m, ds) ∧ numOK ds = true := by
  cases l with
  | nil => simp [amendedPatternL] at h
  | cons c rest =>
    simp only [amendedPatternL, Bool.or_eq_true, Bool.and_eq_true] at h
    by_cases hs : venmo.isSignChar c = true
    · simp only [venmo.matchAmount, if_pos hs]
      rcases hsub : venmo.subMatch rest with _ | ⟨m, ds⟩
      · rcases h with ⟨-, h⟩ | h
        · obtain ⟨m, ds, hgood, -⟩ := subMatch_good h
          rw [hsub] at hgood
          simp at hgood
        · obtain ⟨m, ds, hgood, hds⟩ := subMatch_good h
          rw [hgood]
          exact ⟨none, m, ds, rfl, hds⟩
      · rcases h with ⟨-, h⟩ | h
        · obtain ⟨m2, ds2, hgood, hds2⟩ := subMatch_good h
          rw [hsub] at hgood
          simp only [Option.some.injEq, Prod.mk.injEq] at hgood
          obtain ⟨rfl, rfl⟩ := hgood
          exact ⟨some c, m, ds, rfl, hds2⟩
        · have hcs := (signChar_facts hs).2
          have hmn : markerNumOK (c :: rest) = true := by
            simp only [spaceMarkerNumOK, if_neg hcs] at h
            exact h
          rw [markerNumOK_cons] at hmn
          have hrest := hmn.2
          obtain ⟨hds_eq, hm, hne, hall⟩ := subMatch_sound hsub
          rcases hds_eq with heq | heq
          · have hshift := numOK_shift (heq ▸ hrest) hm
            exact ⟨some c, m, ds, rfl, hshift.2.1⟩
          · exfalso
            obtain ⟨hallr, -, -⟩ := numOK_parts hrest
            rw [heq] at hallr
            simp only [List.all_cons, Bool.and_eq_true] at hallr
            have := digitOrDot_ne_space hallr.1
            exact this rfl
    · have h2 : spaceMarkerNumOK (c :: rest) = true := by
        rcases h with ⟨h1, -⟩ | h1
        · exact absurd h1 hs
        · exact h1
      simp only [venmo.matchAmount, if_neg hs]
      obtain ⟨m, ds, hgood, hds⟩ := subMatch_good h2
      rw [hgood]
      exact ⟨none, m, ds, rfl, hds⟩

lemma matchAmount_sound {l : List Char} {sgn : Option Char} {m : Char} {ds : List Char}
    (h : venmo.matchAmount l = some (sgn, m, ds)) :
    ((sgn = none ∧ (l = m :: ds ∨ l = ' ' :: m :: ds)) ∨
      (∃ c, sgn = some c ∧ venmo.isSignChar c = true
        ∧ (l = c :: m :: ds ∨ l = c :: ' ' :: m :: ds))) ∧
    m.isDigit = false ∧ ds ≠ [] ∧ ds.all venmo.digitOrDot = true := by
  cases l with
  | nil => simp [venmo.matchAmount] at h
  | cons c rest =>
    by_cases hs : venmo.isSignChar c = true
    · simp only [venmo.matchAmount, if_pos hs] at h
      rcases hsub : venmo.subMatch rest with _ | ⟨m2, ds2⟩ <;> rw [hsub] at h
      · rcases hsub2 : venmo.subMatch (c :: rest) with _ | ⟨m3, ds3⟩ <;> rw [hsub2] at h
        · simp at h
        · simp only [Option.map_some', Option.some.injEq, Prod.mk.injEq] at h
          obtain ⟨rfl, rfl, rfl⟩ := h
          obtain ⟨hshape, hm, hne, hall⟩ := subMatch_sound hsub2
          exact ⟨Or.inl ⟨rfl, hshape⟩, hm, hne, hall⟩
      · simp only [Option.some.injEq, Prod.mk.injEq] at h
        obtain ⟨rfl, rfl, rfl⟩ := h
        obtain ⟨hshape, hm, hne, hall⟩ := subMatch_sound hsub
        refine ⟨Or.inr ⟨c, rfl, hs, ?_⟩, hm, hne, hall⟩
        rcases hshape with h1 | h1
        · exact Or.inl (by rw [h1])
        · exact Or.inr (by rw [h1])
    · simp only [venmo.matchAmount, if_neg hs] at h
      rcases hsub : venmo.subMatch (c :: rest) with _ | ⟨m2, ds2⟩ <;> rw [hsub] at h
      · simp at h
      · simp only [Option.map_some', Option.some.injEq, Prod.mk.injEq] at h
        obtain ⟨rfl, rfl, rfl⟩ := h
        obtain ⟨hshape, hm, hne, hall⟩ := subMatch_sound hsub
        exact ⟨Or.inl ⟨rfl, hshape⟩, hm, hne, hall⟩

lemma spaceMarkerNumOK_of {m : Char} {ds : List Char} (hm : m.isDigit = false)
    (hds : numOK ds = true) : spaceMarkerNumOK (m :: ds) = true := by
  simp only [spaceMarkerNumOK]
  by_cases hsp : m = ' '
  · rw [if_pos hsp]
    subst hsp
    have : markerNumOK (' ' :: ds) = true := markerNumOK_cons.2 ⟨by decide, hds⟩
    simp [this]
  · rw [if_neg hsp]
    exact markerNumOK_cons.2 ⟨hm, hds⟩

lemma amendedPatternL_of_decomp {l : List Char} {sgn : Option Char} {m : Char}
    {ds : List Char}
    (hshape : (sgn = none ∧ (l = m :: ds ∨ l = ' ' :: m :: ds)) ∨
      (∃ c, sgn = some c ∧ venmo.isSignChar c = true
        ∧ (l = c :: m :: ds ∨ l = c :: ' ' :: m :: ds)))
    (hm : m.isDigit = false) (hds : numOK ds = true) :
    amendedPatternL l = true := by
  have hsm : spaceMarkerNumOK (m :: ds) = true := spaceMarkerNumOK_of hm hds
  have hsm2 : spaceMarkerNumOK (' ' :: m :: ds) = true := by
    simp only [spaceMarkerNumOK, if_pos rfl]
    have : markerNumOK (m :: ds) = true := markerNumOK_cons.2 ⟨hm, hds⟩
    simp [this]
  rcases hshape with ⟨-, hL | hL⟩ | ⟨c, -, hsc, hL | hL⟩ <;> subst hL
  · simp only [amendedPatternL, Bool.or_eq_true]
    exact Or.inr hsm
  · simp only [amendedPatternL, Bool.or_eq_true]
    exact Or.inr hsm2
  · simp only [amendedPatternL, Bool.or_eq_true, Bool.and_eq_true]
    exact Or.inl ⟨hsc, hsm⟩
  · simp only [amendedPatternL, Bool.or_eq_true, Bool.and_eq_true]
    exact Or.inl ⟨hsc, hsm2⟩

/-- Counterexample for C7: the string with a space between sign and marker
parses successfully although it does not match the pattern as the claim
states it, so parse success is not equivalent to the claimed pattern. -/
theorem amount_pattern_space_counterexample :
    venmo.Amount.from_str "- $5.00" = .ok ⟨"$", ⟨true, 5⟩⟩ ∧
      claimAmountPattern "- $5.00" = false := by
  constructor
  · simp [venmo.Amount.from_str, venmo.matchAmount, venmo.subMatch, venmo.mkMarker,
      venmo.parseNum, venmo.parseIntPart, venmo.parseFrac, venmo.charVal, venmo.digitOrDot,
      venmo.isSignChar]
  · rfl

lemma from_str_eq (s : String) (sgn : Option Char) (m : Char) (ds : List Char)
    (hma : venmo.matchAmount s.data = some (sgn, m, ds)) :
    venmo.Amount.from_str s = match venmo.parseNum ds with
      | some q => .ok ⟨String.mk [m], ⟨sgn == some '-', q⟩⟩
      | none => .error (.ParseAmountError s) := by
  unfold venmo.Amount.from_str
  rw [hma]

lemma from_str_eq_ok (s : String) (sgn : Option Char) (m : Char) (ds : List Char) (q : ℚ)
    (hma : venmo.matchAmount s.data = some (sgn, m, ds))
    (hpn : venmo.parseNum ds = some q) :
    venmo.Amount.from_str s = .ok ⟨String.mk [m], ⟨sgn == some '-', q⟩⟩ := by
  rw [from_str_eq s sgn m ds hma, hpn]

lemma from_str_eq_err (s : String) (sgn : Option Char) (m : Char) (ds : List Char)
    (hma : venmo.matchAmount s.data = some (sgn, m, ds))
    (hpn : venmo.parseNum ds = none) :
    venmo.Amount.from_str s = .error (.ParseAmountError s) := by
  rw [from_str_eq s sgn m ds hma, hpn]

lemma from_str_none (s : String) (hma : venmo.matchAmount s.data = none) :
    venmo.Amount.from_str s = .error (.ParseAmountError s) := by
  unfold venmo.Amount.from_str
  rw [hma]

/-- Claim C7 as amended: the amount parser succeeds exactly on strings
matching the pattern with an optional sign, an optional single space (the
amendment forced by the source regex), a single non-digit marker character
and a numeric substring of digits with at most one decimal point; on
success the marker of a matching decomposition is returned verbatim as the
currency marker, the sign bit is set by the matched sign, and the numeric
substring parses as the exact decimal magnitude; on failure the error is
ParseAmountError carrying the original string. -/
theorem amount_parser_amended_iff (s : String) :
    (∀ a, venmo.Amount.from_str s = .ok a →
      amendedAmountPattern s = true ∧
      ∃ sgn sp m num,
        s.data = sgn.toList ++ (if sp = true then [' '] else []) ++ m :: num ∧
        (∀ c, sgn = some c → venmo.isSignChar c = true) ∧
        m.isDigit = false ∧ numOK num = true ∧
        a.currency = String.mk [m] ∧ a.val.sign = (sgn == some '-') ∧
        venmo.parseNum num = some a.val.mag) ∧
    (∀ e, venmo.Amount.from_str s = .error e →
      e = .ParseAmountError s ∧ amendedAmountPattern s = false) := by
  constructor
  · intro a ha
    rcases hma : venmo.matchAmount s.data with _ | ⟨sgn, m, ds⟩
    · rw [from_str_none s hma] at ha
      simp at ha
    · rcases hpn : venmo.parseNum ds with _ | q
      · rw [from_str_eq_err s sgn m ds hma hpn] at ha
        simp at ha
      · rw [from_str_eq_ok s sgn m ds q hma hpn] at ha
        obtain rfl : a = ⟨String.mk [m], ⟨sgn == some '-', q⟩⟩ := by
          simp only [Except.ok.injEq] at ha
          exact ha.symm
        obtain ⟨hshape, hm, hne, hall⟩ := matchAmount_sound hma
        have hnum : numOK ds = true := (parseNum_isSome_iff ds).1 (by rw [hpn]; rfl)
        refine ⟨amendedPatternL_of_decomp hshape hm hnum, ?_⟩
        rcases hshape with ⟨hsgn, hL | hL⟩ | ⟨c, hsgn, hsc, hL | hL⟩
        · exact ⟨sgn, false, m, ds, by rw [hL, hsgn]; rfl,
            by rw [hsgn]; intro c hc; simp at hc, hm, hnum, rfl, rfl, hpn⟩
        · exact ⟨sgn, true, m, ds, by rw [hL, hsgn]; rfl,
            by rw [hsgn]; intro c hc; simp at hc, hm, hnum, rfl, rfl, hpn⟩
        · exact ⟨sgn, false, m, ds, by rw [hL, hsgn]; rfl,
            by rw [hsgn]; intro x hx; cases hx; exact hsc, hm, hnum, rfl, rfl, hpn⟩
        · exact ⟨sgn, true, m, ds, by rw [hL, hsgn]; rfl,
            by rw [hsgn]; intro x hx; cases hx; exact hsc, hm, hnum, rfl, rfl, hpn⟩
  · intro e he
    rcases hma : venmo.matchAmount s.data with _ | ⟨sgn, m, ds⟩
    · rw [from_str_none s hma] at he
      refine ⟨by simp at he; exact he.symm, ?_⟩
      by_contra hp
      rw [Bool.not_eq_false] at hp
      obtain ⟨sgn, m, ds, hgood, -⟩ := matchAmount_good hp
      rw [hma] at hgood
      simp at hgood
    · rcases hpn : venmo.parseNum ds with _ | q
      · rw [from_str_eq_err s sgn m ds hma hpn] at he
        refine ⟨by simp at he; exact he.symm, ?_⟩
        by_contra hp
        rw [Bool.not_eq_false] at hp
        obtain ⟨sgn2, m2, ds2, hgood, hnum2⟩ := matchAmount_good hp
        rw [hma] at hgood
        simp only [Option.some.injEq, Prod.mk.injEq] at hgood
        obtain ⟨-, -, rfl⟩ := hgood
        have := (parseNum_isSome_iff ds).2 hnum2
        rw [hpn] at this
        simp at this
      · rw [from_str_eq_ok s sgn m ds q hma hpn] at he
        simp at he

/-- Witness for the amended C7 at a concrete accepted string and a concrete
rejected string. -/
theorem amount_parser_amended_iff_witness :
    (amendedAmountPattern "$1.25" = true ∧
      ∃ sgn sp m num,
        ("$1.25" : String).data = sgn.toList ++ (if sp = true then [' '] else []) ++ m :: num ∧
        (∀ c, sgn = some c → venmo.isSignChar c = true) ∧
        m.isDigit = false ∧ numOK num = true ∧
        sampleParsedAmount.currency = String.mk [m] ∧
        sampleParsedAmount.val.sign = (sgn == some '-') ∧
        venmo.parseNum num = some sampleParsedAmount.val.mag) ∧
    (venmo.Error.ParseAmountError "5.00" = venmo.Error.ParseAmountError "5.00" ∧
      amendedAmountPattern "5.00" = false) :=
  ⟨(amount_parser_amended_iff "$1.25").1 sampleParsedAmount (by
      simp [venmo.Amount.from_str, venmo.matchAmount, venmo.subMatch, venmo.mkMarker,
        venmo.parseNum, venmo.parseIntPart, venmo.parseFrac, venmo.charVal,
        venmo.digitOrDot, venmo.isSignChar, sampleParsedAmount]
      norm_num),
   (amount_parser_amended_iff "5.00").2 (venmo.Error.ParseAmountError "5.00") (by
      simp [venmo.Amount.from_str, venmo.matchAmount, venmo.subMatch, venmo.mkMarker,
        venmo.parseNum, venmo.parseIntPart, venmo.parseFrac, venmo.charVal,
        venmo.digitOrDot, venmo.isSignChar])⟩

/-- Claim C10: the input consisting of a sign followed by digits with no
marker parses successfully: the regex falls back so the sign character is
captured as the currency marker and the value is parsed without the sign,
positive, silently losing the sign. -/
theorem sign_swallowed_as_marker :
    venmo.Amount.from_str "-5.00" = .ok ⟨"-", ⟨false, 5⟩⟩ := by
  simp [venmo.Amount.from_str, venmo.matchAmount, venmo.subMatch, venmo.mkMarker,
    venmo.parseNum, venmo.parseIntPart, venmo.parseFrac, venmo.charVal, venmo.digitOrDot,
    venmo.isSignChar]

lemma digitChar_isDigit {d : ℕ} (h : d < 10) : (venmo.digitChar d).isDigit = true := by
  interval_cases d <;> decide

lemma charVal_digitChar {d : ℕ} (h : d < 10) : venmo.charVal (venmo.digitChar d) = d := by
  interval_cases d <;> decide

lemma natValFrom_append (v : ℕ) (l1 l2 : List Char) :
    natValFrom v (l1 ++ l2) = natValFrom (natValFrom v l1) l2 := by
  unfold natValFrom
  rw [List.foldl_append]

lemma natDigitsCore_spec : ∀ (fuel n : ℕ), n < fuel →
    venmo.natDigitsCore fuel n ≠ [] ∧ (∀ c ∈ venmo.natDigitsCore fuel n, c.isDigit = true) ∧
    (∃ c rest, venmo.natDigitsCore fuel n = c :: rest ∧ c.isDigit = true) ∧
    ∀ v, natValFrom v (venmo.natDigitsCore fuel n)
      = v * 10 ^ (venmo.natDigitsCore fuel n).length + n := by
  intro fuel
  induction fuel with
  | zero => intro n h; omega
  | succ fuel ih =>
    intro n h
    by_cases h10 : n < 10
    · rw [show venmo.natDigitsCore (fuel + 1) n = [venmo.digitChar n] from by
        simp [venmo.natDigitsCore, h10]]
      refine ⟨by simp, ?_, ⟨venmo.digitChar n, [], rfl, digitChar_isDigit h10⟩, ?_⟩
      · intro c hc
        rcases List.mem_singleton.1 hc with rfl
        exact digitChar_isDigit h10
      · intro v
        simp [natValFrom, List.foldl, charVal_digitChar h10]
        ring
    · have hrec : n / 10 < fuel := by omega
      obtain ⟨hne, hdig, ⟨c0, r0, hc0, hc0d⟩, hval⟩ := ih (n / 10) hrec
      rw [show venmo.natDigitsCore (fuel + 1) n
          = venmo.natDigitsCore fuel (n / 10) ++ [venmo.digitChar (n % 10)] from by
        simp [venmo.natDigitsCore, h10]]
      have hmod : n % 10 < 10 := by omega
      refine ⟨by simp, ?_, ⟨c0, r0 ++ [venmo.digitChar (n % 10)], by rw [hc0]; simp, hc0d⟩, ?_⟩
      · intro c hc
        rcases List.mem_append.1 hc with hc | hc
        · exact hdig c hc
        · rcases List.mem_singleton.1 hc with rfl
          exact digitChar_isDigit hmod
      · intro v
        rw [natValFrom_append, hval v]
        simp only [natValFrom, List.foldl, List.length_append, List.length_singleton]
        rw [charVal_digitChar hmod]
        rw [pow_succ]
        have := Nat.div_add_mod n 10
        ring_nf
        omega

lemma natDigits_spec (n : ℕ) :
    venmo.natDigits n ≠ [] ∧ (∀ c ∈ venmo.natDigits n, c.isDigit = true) ∧
    (∃ c rest, venmo.natDigits n = c :: rest ∧ c.isDigit = true) ∧
    natValFrom 0 (venmo.natDigits n) = n := by
  obtain ⟨h1, h2, h3, h4⟩ := natDigitsCore_spec (n + 1) n (by omega)
  exact ⟨h1, h2, h3, by rw [show venmo.natDigits n = venmo.natDigitsCore (n + 1) n from rfl, h4 0]; ring⟩

lemma parseIntPart_digits_true : ∀ (I : List Char) (v : ℕ) (rest : List Char),
    (∀ c ∈ I, c.isDigit = true) →
    venmo.parseIntPart (I ++ rest) v true = venmo.parseIntPart rest (natValFrom v I) true := by
  intro I
  induction I with
  | nil => intro v rest _; rfl
  | cons c I ih =>
    intro v rest hdig
    have hc : c.isDigit = true := hdig c (by simp)
    rw [List.cons_append,
      show venmo.parseIntPart (c :: (I ++ rest)) v true
        = venmo.parseIntPart (I ++ rest) (10 * v + venmo.charVal c) true from by
      simp [venmo.parseIntPart, hc]]
    rw [ih _ rest (fun x hx => hdig x (by simp [hx]))]
    rfl

lemma parseIntPart_digits_false (c : Char) (I : List Char) (v : ℕ) (rest : List Char)
    (hdig : ∀ x ∈ c :: I, x.isDigit = true) :
    venmo.parseIntPart ((c :: I) ++ rest) v false
      = venmo.parseIntPart rest (natValFrom v (c :: I)) true := by
  have hc : c.isDigit = true := hdig c (by simp)
  rw [List.cons_append,
    show venmo.parseIntPart (c :: (I ++ rest)) v false
      = venmo.parseIntPart (I ++ rest) (10 * v + venmo.charVal c) true from by
    simp [venmo.parseIntPart, hc]]
  rw [parseIntPart_digits_true I _ rest (fun x hx => hdig x (by simp [hx]))]
  rfl

lemma parseFrac_digits : ∀ (F : List Char) (v k : ℕ), (∀ c ∈ F, c.isDigit = true) →
    venmo.parseFrac F v k = some (natValFrom v F, k + F.length) := by
  intro F
  induction F with
  | nil => intro v k _; simp [venmo.parseFrac, natValFrom]
  | cons c F ih =>
    intro v k hdig
    have hc : c.isDigit = true := hdig c (by simp)
    rw [show venmo.parseFrac (c :: F) v k
        = venmo.parseFrac F (10 * v + venmo.charVal c) (k + 1) from by
      simp [venmo.parseFrac, hc]]
    rw [ih _ _ (fun x hx => hdig x (by simp [hx]))]
    simp only [natValFrom, List.foldl, List.length_cons]
    congr 1
    rw [Prod.mk.injEq]
    exact ⟨rfl, by omega⟩

lemma parseNum_int_frac (I F : List Char) (hI : I ≠ []) (hIdig : ∀ c ∈ I, c.isDigit = true)
    (hFdig : ∀ c ∈ F, c.isDigit = true) :
    venmo.parseNum (I ++ '.' :: F)
      = some ((natValFrom 0 I : ℚ) + (natValFrom 0 F : ℚ) / 10 ^ F.length) := by
  unfold venmo.parseNum
  cases I with
  | nil => exact absurd rfl hI
  | cons c I' =>
    rw [parseIntPart_digits_false c I' 0 ('.' :: F) hIdig]
    rw [show venmo.parseIntPart ('.' :: F) (natValFrom 0 (c :: I')) true
        = match venmo.parseFrac F 0 0 with
          | some p => if true || decide (0 < p.2)
              then some ((natValFrom 0 (c :: I') : ℚ) + (p.1 : ℚ) / 10 ^ p.2) else none
          | none => none from by
      simp [venmo.parseIntPart]]
    rw [parseFrac_digits F 0 0 hFdig]
    simp

lemma roundHalfEven_nonneg {q : ℚ} (h : 0 ≤ q) : 0 ≤ venmo.roundHalfEven q := by
  unfold venmo.roundHalfEven
  have hf : (0 : ℤ) ≤ ⌊q⌋ := Int.floor_nonneg.2 h
  split_ifs <;> omega

lemma roundHalfEven_close (q : ℚ) : |((venmo.roundHalfEven q : ℤ) : ℚ) - q| ≤ 1 / 2 := by
  unfold venmo.roundHalfEven
  have h1 : (⌊q⌋ : ℚ) ≤ q := Int.floor_le q
  have h2 : q < ⌊q⌋ + 1 := Int.lt_floor_add_one q
  split_ifs with ha hb hc <;> push_cast <;> rw [abs_le] <;> constructor <;> linarith

lemma roundHalfEven_int (z : ℤ) : venmo.roundHalfEven ((z : ℤ) : ℚ) = z := by
  unfold venmo.roundHalfEven
  rw [Int.floor_intCast]
  norm_num

lemma parseIntPart_nonneg : ∀ (l : List Char) (v : ℕ) (seen : Bool) (q : ℚ),
    venmo.parseIntPart l v seen = some q → 0 ≤ q := by
  intro l
  induction l with
  | nil =>
    intro v seen q h
    cases seen
    · simp [venmo.parseIntPart] at h
    · simp [venmo.parseIntPart] at h
      subst h
      positivity
  | cons c l ih =>
    intro v seen q h
    by_cases hc : c.isDigit
    · rw [show venmo.parseIntPart (c :: l) v seen
          = venmo.parseIntPart l (10 * v + venmo.charVal c) true from by
        simp [venmo.parseIntPart, hc]] at h
      exact ih _ _ _ h
    · by_cases hdot : c = '.'
      · subst hdot
        rcases hfrac : venmo.parseFrac l 0 0 with _ | p
        · rw [show venmo.parseIntPart ('.' :: l) v seen = none from by
            simp [venmo.parseIntPart, hfrac]] at h
          simp at h
        · rw [show venmo.parseIntPart ('.' :: l) v seen
              = if seen || decide (0 < p.2) then some ((v : ℚ) + (p.1 : ℚ) / 10 ^ p.2)
                else none from by
            simp [venmo.parseIntPart, hfrac]] at h
          split_ifs at h with hcond
          simp only [Option.some.injEq] at h
          subst h
          positivity
      · rw [show venmo.parseIntPart (c :: l) v seen = none from by
          simp [venmo.parseIntPart, hc, hdot]] at h
        simp at h

lemma subMatch_render {m : Char} {F : List Char} (hm : m.isDigit = false)
    (hne : F ≠ []) (hall : F.all venmo.digitOrDot = true)
    (hhd : ∀ c F2, F = c :: F2 → c.isDigit = true) :
    venmo.subMatch (m :: F) = some (m, F) := by
  simp only [venmo.subMatch]
  by_cases hsp : m = ' '
  · rw [if_pos hsp]
    subst hsp
    cases F with
    | nil => exact absurd rfl hne
    | cons c F2 =>
      have hmk : venmo.mkMarker (c :: F2) = none := by
        simp [venmo.mkMarker, hhd c F2 rfl]
      rw [hmk]
      simp only [Option.orElse]
      exact mkMarker_complete (by decide) hne hall
  · rw [if_neg hsp]
    exact mkMarker_complete hm hne hall

lemma matchAmount_render (sign : Bool) {m : Char} {F : List Char} (hm : m.isDigit = false)
    (hne : F ≠ []) (hall : F.all venmo.digitOrDot = true)
    (hhd : ∀ c F2, F = c :: F2 → c.isDigit = true) :
    venmo.matchAmount ((if sign then ['-'] else []) ++ m :: F)
      = some ((if sign then some '-' else none), m, F) := by
  have hsub := subMatch_render hm hne hall hhd
  cases sign
  · simp only [Bool.false_eq_true, if_false, List.nil_append]
    by_cases hs : venmo.isSignChar m = true
    · simp only [venmo.matchAmount, if_pos hs]
      have hsubF : venmo.subMatch F = none := by
        cases F with
        | nil => rfl
        | cons c F2 =>
          have hcd : c.isDigit = true := hhd c F2 rfl
          have hcs : ¬c = ' ' := by
            intro hcontra
            subst hcontra
            simp at hcd
          simp [venmo.subMatch, if_neg hcs, venmo.mkMarker, hcd]
      rw [hsubF, hsub]
      rfl
    · simp only [venmo.matchAmount, if_neg hs]
      rw [hsub]
      rfl
  · simp only [if_true, List.cons_append, List.nil_append]
    have hsign : venmo.isSignChar '-' = true := by decide
    simp only [venmo.matchAmount, if_pos hsign]
    rw [hsub]

lemma fmt4_parse (mq : ℚ) :
    venmo.parseNum (venmo.fmt4 mq)
      = some ((((venmo.roundHalfEven (mq * 10000)).toNat : ℕ) : ℚ) / 10000) := by
  rw [show venmo.fmt4 mq
      = venmo.natDigits ((venmo.roundHalfEven (mq * 10000)).toNat / 10000)
        ++ '.' :: [venmo.digitChar ((venmo.roundHalfEven (mq * 10000)).toNat / 1000 % 10),
          venmo.digitChar ((venmo.roundHalfEven (mq * 10000)).toNat / 100 % 10),
          venmo.digitChar ((venmo.roundHalfEven (mq * 10000)).toNat / 10 % 10),
          venmo.digitChar ((venmo.roundHalfEven (mq * 10000)).toNat % 10)] from rfl]
  obtain ⟨hne, hdig, -, hval⟩ := natDigits_spec ((venmo.roundHalfEven (mq * 10000)).toNat / 10000)
  rw [parseNum_int_frac _ _ hne hdig (by
    intro c hc
    simp only [List.mem_cons, List.not_mem_nil, or_false] at hc
    rcases hc with rfl | rfl | rfl | rfl <;> exact digitChar_isDigit (by omega))]
  rw [hval]
  have hb1 : (venmo.roundHalfEven (mq * 10000)).toNat / 1000 % 10 < 10 := by omega
  have hb2 : (venmo.roundHalfEven (mq * 10000)).toNat / 100 % 10 < 10 := by omega
  have hb3 : (venmo.roundHalfEven (mq * 10000)).toNat / 10 % 10 < 10 := by omega
  have hb4 : (venmo.roundHalfEven (mq * 10000)).toNat % 10 < 10 := by omega
  rw [show natValFrom 0 [venmo.digitChar ((venmo.roundHalfEven (mq * 10000)).toNat / 1000 % 10),
      venmo.digitChar ((venmo.roundHalfEven (mq * 10000)).toNat / 100 % 10),
      venmo.digitChar ((venmo.roundHalfEven (mq * 10000)).toNat / 10 % 10),
      venmo.digitChar ((venmo.roundHalfEven (mq * 10000)).toNat % 10)]
      = (venmo.roundHalfEven (mq * 10000)).toNat % 10000 from by
    simp only [natValFrom, List.foldl, charVal_digitChar hb1, charVal_digitChar hb2,
      charVal_digitChar hb3, charVal_digitChar hb4]
    omega]
  congr 1
  have h0 : 10000 * ((venmo.roundHalfEven (mq * 10000)).toNat / 10000)
      + (venmo.roundHalfEven (mq * 10000)).toNat % 10000
      = (venmo.roundHalfEven (mq * 10000)).toNat := Nat.div_add_mod _ 10000
  have hlen : ([venmo.digitChar ((venmo.roundHalfEven (mq * 10000)).toNat / 1000 % 10),
      venmo.digitChar ((venmo.roundHalfEven (mq * 10000)).toNat / 100 % 10),
      venmo.digitChar ((venmo.roundHalfEven (mq * 10000)).toNat / 10 % 10),
      venmo.digitChar ((venmo.roundHalfEven (mq * 10000)).toNat % 10)] : List Char).length
      = 4 := rfl
  rw [hlen]
  rw [eq_div_iff (by norm_num : (10000 : ℚ) ≠ 0)]
  have hN : (((venmo.roundHalfEven (mq * 10000)).toNat : ℕ) : ℚ)
      = 10000 * (((venmo.roundHalfEven (mq * 10000)).toNat / 10000 : ℕ) : ℚ)
        + (((venmo.roundHalfEven (mq * 10000)).toNat % 10000 : ℕ) : ℚ) := by
    exact_mod_cast h0.symm
  rw [hN]
  ring

lemma fmt4_facts (mq : ℚ) :
    venmo.fmt4 mq ≠ [] ∧ (venmo.fmt4 mq).all venmo.digitOrDot = true ∧
      ∀ c F2, venmo.fmt4 mq = c :: F2 → c.isDigit = true := by
  obtain ⟨hne, hdig, ⟨c0, r0, hc0, hc0d⟩, -⟩ :=
    natDigits_spec ((venmo.roundHalfEven (mq * 10000)).toNat / 10000)
  have hshape : venmo.fmt4 mq
      = venmo.natDigits ((venmo.roundHalfEven (mq * 10000)).toNat / 10000)
        ++ '.' :: [venmo.digitChar ((venmo.roundHalfEven (mq * 10000)).toNat / 1000 % 10),
          venmo.digitChar ((venmo.roundHalfEven (mq * 10000)).toNat / 100 % 10),
          venmo.digitChar ((venmo.roundHalfEven (mq * 10000)).toNat / 10 % 10),
          venmo.digitChar ((venmo.roundHalfEven (mq * 10000)).toNat % 10)] := rfl
  refine ⟨?_, ?_, ?_⟩
  · rw [hshape, hc0]
    simp
  · rw [hshape]
    rw [List.all_append, Bool.and_eq_true]
    constructor
    · rw [List.all_eq_true]
      intro c hc
      simp [venmo.digitOrDot, hdig c hc]
    · rw [List.all_eq_true]
      intro c hc
      simp only [List.mem_cons, List.not_mem_nil, or_false] at hc
      rcases hc with rfl | rfl | rfl | rfl | rfl
      · simp [venmo.digitOrDot]
      all_goals
        simp only [venmo.digitOrDot, Bool.or_eq_true, decide_eq_true_eq]
        exact Or.inl (digitChar_isDigit (by omega))
  · intro c F2 hEq
    rw [hshape, hc0] at hEq
    simp only [List.cons_append, List.cons.injEq] at hEq
    rw [← hEq.1]
    exact hc0d

lemma render_data (a : venmo.Amount) (m : Char) (hc : a.currency = String.mk [m]) :
    (a.render).data = (if a.val.sign then ['-'] else []) ++ m :: venmo.fmt4 a.val.mag := by
  unfold venmo.Amount.render F64.isSignNegative
  cases hs : a.val.sign <;>
    simp [String.data_append, hc]

/-- Claim C8 as amended: parsing a valid amount string and re-rendering it
yields a string that parses back to the same marker and sign, with the
magnitude rounded to four fractional digits (ties to even); the round-trip
error is at most half of the last rendered digit, and the value is
reproduced exactly whenever the original magnitude had at most four
fractional digits. Exact reproduction for every valid string, as the claim
states it, fails for strings with more fractional digits. -/
theorem roundtrip_rounds_to_four_digits (s : String) (a : venmo.Amount)
    (h : venmo.Amount.from_str s = .ok a) :
    ∃ a2, venmo.Amount.from_str a.render = .ok a2 ∧
      a2.currency = a.currency ∧ a2.val.sign = a.val.sign ∧
      (a2.val.mag * 10000 : ℚ) = ((venmo.roundHalfEven (a.val.mag * 10000) : ℤ) : ℚ) ∧
      |a2.val.mag - a.val.mag| ≤ 1 / 20000 ∧
      (∀ z : ℤ, (a.val.mag * 10000 : ℚ) = (z : ℚ) → a2.val.mag = a.val.mag) := by
  rcases hma : venmo.matchAmount s.data with _ | ⟨sgn, m, ds⟩
  · rw [from_str_none s hma] at h
    simp at h
  · rcases hpn : venmo.parseNum ds with _ | q
    · rw [from_str_eq_err s sgn m ds hma hpn] at h
      simp at h
    · rw [from_str_eq_ok s sgn m ds q hma hpn] at h
      obtain rfl : a = ⟨String.mk [m], ⟨sgn == some '-', q⟩⟩ := by
        simp only [Except.ok.injEq] at h
        exact h.symm
      obtain ⟨-, hm, -, -⟩ := matchAmount_sound hma
      have hq0 : 0 ≤ q := parseIntPart_nonneg ds 0 false q hpn
      have hrhe0 : 0 ≤ venmo.roundHalfEven (q * 10000) :=
        roundHalfEven_nonneg (by positivity)
      have hncast : (((venmo.roundHalfEven (q * 10000)).toNat : ℕ) : ℚ)
          = ((venmo.roundHalfEven (q * 10000) : ℤ) : ℚ) := by
        exact_mod_cast congrArg (Int.cast : ℤ → ℚ) (Int.toNat_of_nonneg hrhe0)
      obtain ⟨hne, hall, hhd⟩ := fmt4_facts q
      have hdata := render_data ⟨String.mk [m], ⟨sgn == some '-', q⟩⟩ m rfl
      have hmatch : venmo.matchAmount
          ((⟨String.mk [m], ⟨sgn == some '-', q⟩⟩ : venmo.Amount).render).data
          = some ((if (sgn == some '-') then some '-' else none), m, venmo.fmt4 q) := by
        rw [hdata]
        exact matchAmount_render (sgn == some '-') hm hne hall hhd
      have hsignb : ((if (sgn == some '-') then some '-' else none : Option Char)
          == some '-') = (sgn == some '-') := by
        cases hb : (sgn == some '-') <;> simp [hb]
      refine ⟨⟨String.mk [m], ⟨(if (sgn == some '-') then some '-' else none : Option Char)
          == some '-', (((venmo.roundHalfEven (q * 10000)).toNat : ℕ) : ℚ) / 10000⟩⟩,
        from_str_eq_ok _ _ _ _ _ hmatch (fmt4_parse q), rfl, hsignb, ?_, ?_, ?_⟩
      · simp only
        rw [div_mul_cancel₀ _ (by norm_num : (10000 : ℚ) ≠ 0), hncast]
      · simp only
        have hclose := roundHalfEven_close (q * 10000)
        rw [abs_le] at hclose ⊢
        rw [← hncast] at hclose
        constructor
        · linarith [hclose.1]
        · linarith [hclose.2]
      · intro z hz
        simp only
        have hz0 : 0 ≤ z := by
          have h1 : (0 : ℚ) ≤ (z : ℚ) := by
            rw [← hz]
            positivity
          exact_mod_cast h1
        have h2 : venmo.roundHalfEven (q * 10000) = z := by
          rw [show (q * 10000 : ℚ) = ((z : ℤ) : ℚ) from hz]
          exact roundHalfEven_int z
        have h3 : (((venmo.roundHalfEven (q * 10000)).toNat : ℕ) : ℚ) = (z : ℚ) := by
          rw [h2]
          exact_mod_cast congrArg (Int.cast : ℤ → ℚ) (Int.toNat_of_nonneg hz0)
        rw [h3, ← hz]
        field_simp

lemma rhe_small : venmo.roundHalfEven ((1 / 100000 : ℚ) * 10000) = 0 := by
  unfold venmo.roundHalfEven
  have hfl : ⌊(1 / 100000 : ℚ) * 10000⌋ = 0 := by
    rw [Int.floor_eq_iff]
    norm_num
  rw [hfl]
  norm_num

lemma render_small :
    (⟨"$", ⟨false, 1 / 100000⟩⟩ : venmo.Amount).render = "$0.0000" := by
  have hfmt : venmo.fmt4 (1 / 100000 : ℚ) = ['0', '.', '0', '0', '0', '0'] := by
    simp only [venmo.fmt4]
    rw [rhe_small]
    rfl
  unfold venmo.Amount.render F64.isSignNegative
  simp only
  rw [hfmt]
  rfl

/-- Counterexample for C8: the valid amount string with five fractional
digits parses to one hundred-thousandth, but re-rendering with four fixed
fractional digits and re-parsing yields zero, which is not an equivalent
signed value within any floating-point tolerance. -/
theorem roundtrip_precision_counterexample :
    venmo.Amount.from_str "$0.00001" = .ok ⟨"$", ⟨false, 1 / 100000⟩⟩ ∧
    venmo.Amount.from_str ((⟨"$", ⟨false, 1 / 100000⟩⟩ : venmo.Amount).render)
      = .ok ⟨"$", ⟨false, 0⟩⟩ ∧
    ¬|(0 : ℚ) - 1 / 100000| ≤ 1 / 1000000000 := by
  refine ⟨?_, ?_, by norm_num [abs_sub_comm, abs_of_nonneg]⟩
  · simp [venmo.Amount.from_str, venmo.matchAmount, venmo.subMatch, venmo.mkMarker,
      venmo.parseNum, venmo.parseIntPart, venmo.parseFrac, venmo.charVal, venmo.digitOrDot,
      venmo.isSignChar]
    norm_num
  · rw [render_small]
    simp [venmo.Amount.from_str, venmo.matchAmount, venmo.subMatch, venmo.mkMarker,
      venmo.parseNum, venmo.parseIntPart, venmo.parseFrac, venmo.charVal, venmo.digitOrDot,
      venmo.isSignChar]

/-- Witness for the amended C8 at a concrete parsed amount. -/
theorem roundtrip_rounds_to_four_digits_witness :
    ∃ a2, venmo.Amount.from_str sampleParsedAmount.render = .ok a2 ∧
      a2.currency = sampleParsedAmount.currency ∧
      a2.val.sign = sampleParsedAmount.val.sign ∧
      (a2.val.mag * 10000 : ℚ)
        = ((venmo.roundHalfEven (sampleParsedAmount.val.mag * 10000) : ℤ) : ℚ) ∧
      |a2.val.mag - sampleParsedAmount.val.mag| ≤ 1 / 20000 ∧
      (∀ z : ℤ, (sampleParsedAmount.val.mag * 10000 : ℚ) = (z : ℚ) →
        a2.val.mag = sampleParsedAmount.val.mag) :=
  roundtrip_rounds_to_four_digits "$1.25" sampleParsedAmount (by
    simp [venmo.Amount.from_str, venmo.matchAmount, venmo.subMatch, venmo.mkMarker,
      venmo.parseNum, venmo.parseIntPart, venmo.parseFrac, venmo.charVal,
      venmo.digitOrDot, venmo.isSignChar, sampleParsedAmount]
    norm_num)
